import Mathlib

set_option maxRecDepth 4000

/-!
Shallow embedding of the CONAPREV-82 confirmation backend (the latest server
variant: in-memory roster index, hard-coded event windows, retry wrapper and
the `/confirm` handler).  JS strings are modelled as lists of Unicode code
points (`CS`); machine time is modelled at the minute granularity produced by
`currentSpDate` (seconds are always zero there, so JS millisecond comparisons
and `Math.floor(diffMs/60000)` are exact on this timeline).
-/

/-- Code-point string: a JS string as the list of its code points. -/
abbrev CS := List Nat

/-- Association-list lookup (first binding wins); models `Map.get` and the
finite character tables below. -/
def tlookup {κ α : Type} [DecidableEq κ] : List (κ × α) → κ → Option α
  | [], _ => none
  | p :: rest, k => if k = p.1 then some p.2 else tlookup rest k

/-! ## Header normalisation (`normalizeHeader`) -/

/-- Combining diacritical marks, the range stripped by
`.replace(/[̀-ͯ]/g, '')`. -/
def Combining (c : Nat) : Prop := 0x300 ≤ c ∧ c ≤ 0x36F

instance (c : Nat) : Decidable (Combining c) :=
  inferInstanceAs (Decidable (_ ∧ _))

/-- JS `\s` / `String.prototype.trim` whitespace (code points). -/
def IsWs (c : Nat) : Prop :=
  c = 32 ∨ (9 ≤ c ∧ c ≤ 13) ∨ c = 0xA0 ∨ c = 0x1680 ∨ (0x2000 ≤ c ∧ c ≤ 0x200A) ∨
  c = 0x2028 ∨ c = 0x2029 ∨ c = 0x202F ∨ c = 0x205F ∨ c = 0x3000 ∨ c = 0xFEFF

instance (c : Nat) : Decidable (IsWs c) :=
  inferInstanceAs (Decidable (_ ∨ _))

/-- Canonical (NFD) decompositions of the precomposed Latin letters that occur
in the Portuguese spreadsheet headers this server reads (both cases of
a/e/i/o/u with acute, grave, circumflex, tilde, diaeresis as applicable, and
c-cedilla).  Characters outside the table decompose to themselves. -/
def nfdTable : List (Nat × List Nat) := [
  (0xE1, [0x61, 0x301]), (0xE9, [0x65, 0x301]), (0xED, [0x69, 0x301]),
  (0xF3, [0x6F, 0x301]), (0xFA, [0x75, 0x301]), (0xE0, [0x61, 0x300]),
  (0xE2, [0x61, 0x302]), (0xEA, [0x65, 0x302]), (0xF4, [0x6F, 0x302]),
  (0xE3, [0x61, 0x303]), (0xF5, [0x6F, 0x303]), (0xE7, [0x63, 0x327]),
  (0xFC, [0x75, 0x308]),
  (0xC1, [0x41, 0x301]), (0xC9, [0x45, 0x301]), (0xCD, [0x49, 0x301]),
  (0xD3, [0x4F, 0x301]), (0xDA, [0x55, 0x301]), (0xC0, [0x41, 0x300]),
  (0xC2, [0x41, 0x302]), (0xCA, [0x45, 0x302]), (0xD4, [0x4F, 0x302]),
  (0xC3, [0x41, 0x303]), (0xD5, [0x4F, 0x303]), (0xC7, [0x43, 0x327]),
  (0xDC, [0x55, 0x308])]

/-- Unicode lower-casing beyond ASCII for the same alphabet
(accented uppercase letter to its accented lowercase form). -/
def lowerTable : List (Nat × Nat) := [
  (0xC1, 0xE1), (0xC9, 0xE9), (0xCD, 0xED), (0xD3, 0xF3), (0xDA, 0xFA),
  (0xC0, 0xE0), (0xC2, 0xE2), (0xCA, 0xEA), (0xD4, 0xF4), (0xC3, 0xE3),
  (0xD5, 0xF5), (0xC7, 0xE7), (0xDC, 0xFC)]

/-- One character's NFD decomposition. -/
def nfdChar (c : Nat) : List Nat := (tlookup nfdTable c).getD [c]

/-- `.normalize('NFD')`. -/
def nfd (s : CS) : CS := (s.map nfdChar).flatten

/-- `.replace(/[̀-ͯ]/g, '')`. -/
def stripMarks (s : CS) : CS := s.filter (fun c => decide (¬ Combining c))

/-- Worker for `collapseWs`; the flag records whether the previous source
character was whitespace (in which case the run already emitted its space). -/
def collapseGo : CS → Bool → CS
  | [], _ => []
  | c :: rest, prev =>
    if IsWs c then
      if prev then collapseGo rest true else 32 :: collapseGo rest true
    else c :: collapseGo rest false

/-- `.replace(/\s+/g, ' ')`: every maximal whitespace run becomes one space. -/
def collapseWs (s : CS) : CS := collapseGo s false

/-- Drop trailing whitespace. -/
def trimRight : CS → CS
  | [] => []
  | c :: rest =>
    match trimRight rest with
    | [] => if IsWs c then [] else [c]
    | r => c :: r

/-- `.trim()`. -/
def trimWs (s : CS) : CS := trimRight (s.dropWhile (fun c => decide (IsWs c)))

/-- `.toLowerCase()` on the modelled alphabet: ASCII letters by offset,
accented letters via `lowerTable`, identity elsewhere. -/
def toLowerChar (c : Nat) : Nat :=
  if 65 ≤ c ∧ c ≤ 90 then c + 32
  else match tlookup lowerTable c with
    | some v => v
    | none => c

/-- `normalizeHeader`: NFD-decompose, strip combining marks, collapse
whitespace runs to single spaces, trim, lower-case. -/
def normalizeHeader (s : CS) : CS :=
  (trimWs (collapseWs (stripMarks (nfd s)))).map toLowerChar

/-! Shape predicates used to reason about normalisation. -/

/-- Every whitespace character of the string is a plain space. -/
def allWsSpace (s : CS) : Prop := ∀ c ∈ s, IsWs c → c = 32

/-- No two adjacent whitespace characters. -/
def noAdjWs : CS → Prop
  | [] => True
  | [_] => True
  | a :: b :: rest => ¬(IsWs a ∧ IsWs b) ∧ noAdjWs (b :: rest)

/-- The first character, if any, is not whitespace. -/
def headNotWs : CS → Prop
  | [] => True
  | c :: _ => ¬ IsWs c

/-- The last character, if any, is not whitespace. -/
def lastNotWs : CS → Prop
  | [] => True
  | [c] => ¬ IsWs c
  | _ :: b :: rest => lastNotWs (b :: rest)

/-! ## Substring matching and column resolution -/

/-- Does the second list start with the first one? -/
def hasPre : CS → CS → Bool
  | [], _ => true
  | _ :: _, [] => false
  | a :: ps, b :: ss => decide (a = b) && hasPre ps ss

/-- `String.prototype.includes`: the pattern occurs somewhere in the string. -/
def includesCS : CS → CS → Bool
  | [], pat => pat.isEmpty
  | s@(_ :: rest), pat => hasPre pat s || includesCS rest pat

/-- Code points of "inscr". -/
def inscrCS : CS := [105, 110, 115, 99, 114]
/-- Code points of "status". -/
def statusCS : CS := [115, 116, 97, 116, 117, 115]
/-- Code points of "situacao". -/
def situacaoCS : CS := [115, 105, 116, 117, 97, 99, 97, 111]
/-- Code points of "tipo". -/
def tipoCS : CS := [116, 105, 112, 111]
/-- Code points of "categoria". -/
def categoriaCS : CS := [99, 97, 116, 101, 103, 111, 114, 105, 97]
/-- Code points of "nome". -/
def nomeCS : CS := [110, 111, 109, 101]
/-- Code points of "data". -/
def dataCS : CS := [100, 97, 116, 97]
/-- Code points of "horario". -/
def horarioCS : CS := [104, 111, 114, 97, 114, 105, 111]
/-- Code points of "primeiro dia". -/
def primeiroDiaCS : CS := [112, 114, 105, 109, 101, 105, 114, 111, 32, 100, 105, 97]
/-- Code points of "segundo dia". -/
def segundoDiaCS : CS := [115, 101, 103, 117, 110, 100, 111, 32, 100, 105, 97]
/-- Code points of "ECONNRESET". -/
def econnresetCS : CS := [69, 67, 79, 78, 78, 82, 69, 83, 69, 84]
/-- Code points of "ETIMEDOUT". -/
def etimedoutCS : CS := [69, 84, 73, 77, 69, 68, 79, 85, 84]

/-- A normalised header free of the status/situacao/tipo/categoria markers
(the filter applied to "inscr" candidates). -/
def cleanHeader (h : CS) : Bool :=
  !(includesCS h statusCS) && !(includesCS h situacaoCS) &&
  !(includesCS h tipoCS) && !(includesCS h categoriaCS)

/-- `pickInscricaoIndex`: among headers containing "inscr", prefer the first
one free of status/situacao/tipo/categoria, falling back to the first
candidate; `-1` when no header contains "inscr". -/
def pickInscricaoIndex (normHeads : List CS) : Int :=
  let cand := normHeads.enum.filter (fun x => includesCS x.2 inscrCS)
  match cand with
  | [] => -1
  | c0 :: _ =>
    match cand.filter (fun x => cleanHeader x.2) with
    | y :: _ => (y.1 : Int)
    | [] => (c0.1 : Int)

/-- Index of the first element satisfying the predicate. -/
def findIdxCS (p : CS → Bool) : List CS → Option Nat
  | [] => none
  | h :: t => if p h then some 0 else (findIdxCS p t).map (· + 1)

/-- Modelled from the spec: registration column of a day-table resolved "by a
simple substring match on `inscr` over normalized headers" - the index of the
first header containing "inscr", `-1` if none. -/
def simpleInscrIndex (normHeads : List CS) : Int :=
  match findIdxCS (fun h => includesCS h inscrCS) normHeads with
  | some i => (i : Int)
  | none => -1

/-- Modelled from the spec (section 4.2 wording): prefer the first "inscr"
header free of status/situacao/tipo/categoria, else fall back to the first
"inscr" header, else `-1`. -/
def disambigInscrIndex (normHeads : List CS) : Int :=
  match findIdxCS (fun h => includesCS h inscrCS && cleanHeader h) normHeads with
  | some i => (i : Int)
  | none => simpleInscrIndex normHeads

/-! ## Time-window policy -/

/-- The two event day-tables. -/
inductive Day where
  | Dia1
  | Dia2
deriving DecidableEq, Repr

/-- Result of `getWindowStatus` (`open` is a Lean keyword, hence `opened`). -/
inductive WinStatus where
  | opened (day : Day)
  | before (nextDay : Day) (nextStart : Int) (label : CS)
  | after
  | unknown
deriving DecidableEq, Repr

/-- `spDate(2025, 8, d, H, M)` on a timeline of minutes:
`Date.UTC(y, m-1, d, H+3, M)` restricted to August 2025, measured in minutes
(the month/year offset is a shared additive constant and is dropped). -/
def spMinutes (d H M : Int) : Int := (d * 24 + (H + 3)) * 60 + M

/-- Day-1 window start (12/08 08:30). -/
def d1Start : Int := spMinutes 12 8 30
/-- Day-1 window end (12/08 19:35). -/
def d1End : Int := spMinutes 12 19 35
/-- Day-2 window start (13/08 08:30). -/
def d2Start : Int := spMinutes 13 8 30
/-- Day-2 window end (13/08 15:00). -/
def d2End : Int := spMinutes 13 15 0

/-- `getWindowStatus`, as a pure function of the current minute. -/
def getWindowStatus (now : Int) : WinStatus :=
  if d1Start ≤ now ∧ now ≤ d1End then .opened .Dia1
  else if d2Start ≤ now ∧ now ≤ d2End then .opened .Dia2
  else if now < d1Start then .before .Dia1 d1Start primeiroDiaCS
  else if d1End < now ∧ now < d2Start then .before .Dia2 d2Start segundoDiaCS
  else if d2End < now then .after
  else .unknown

/-- `Math.max(0, Math.floor(diffMs / 60000))` on the minute timeline. -/
def totalMin (nextStart now : Int) : Nat := (max 0 (nextStart - now)).toNat

/-- Decimal digits of a number, as code points. -/
def natToCS (n : Nat) : CS := (Nat.toDigits 10 n).map Char.toNat

/-- `String(n).padStart(2, '0')`. -/
def pad2 (n : Nat) : CS :=
  let d := natToCS n
  if d.length < 2 then List.replicate (2 - d.length) 48 ++ d else d

/-! ## Roster index build (`initSheets`, profile-table phase) -/

/-- One roster index entry: `{ aba, nome, inscricao }`. -/
structure Entry where
  aba : CS
  nome : CS
  inscricao : CS
deriving DecidableEq, Repr

/-- One source row as extracted by the profile-table scan: source table name,
raw CPF cell, trimmed name and registration-number cells. -/
structure RawRow where
  aba : CS
  cpf : CS
  nome : CS
  inscricao : CS
deriving DecidableEq, Repr

/-- `.replace(/\D/g, '')`: keep only decimal digits. -/
def digitsOf (s : CS) : CS := s.filter (fun c => decide (48 ≤ c ∧ c ≤ 57))

/-- `Map.set`: replace the entry of an existing key, else append. -/
def msetEntry (m : List (CS × Entry)) (k : CS) (v : Entry) : List (CS × Entry) :=
  match tlookup m k with
  | some _ => m.map (fun p => if p.1 = k then (k, v) else p)
  | none => m ++ [(k, v)]

/-- `entryOf r`: the index entry a row contributes. -/
def entryOf (r : RawRow) : Entry := ⟨r.aba, r.nome, r.inscricao⟩

/-- The row loop body of `initSheets`: strip non-digits from the CPF, skip
empty CPFs, insert first occurrences, and overwrite an existing entry only
when it lacks a registration number and the new row has one. -/
def insertRow (m : List (CS × Entry)) (r : RawRow) : List (CS × Entry) :=
  let cpf := digitsOf r.cpf
  if cpf = [] then m
  else match tlookup m cpf with
    | none => msetEntry m cpf (entryOf r)
    | some cur =>
      if cur.inscricao = [] ∧ r.inscricao ≠ [] then msetEntry m cpf (entryOf r) else m

/-- `initSheets`' roster index build over the flattened sequence of source
rows (tables in their fixed order, rows in sheet order). -/
def buildIndex (rows : List RawRow) : List (CS × Entry) := rows.foldl insertRow []

/-- Modelled from the spec: "the first-encountered record wins unless it lacks
a registrationNumber and a later one has one, in which case the later one
overwrites it once" - the expected final entry for an identity number. -/
def firstWinsUpgrade (rows : List RawRow) (k : CS) : Option Entry :=
  match rows.filter (fun r => decide (digitsOf r.cpf = k)) with
  | [] => none
  | r0 :: rest =>
    if r0.inscricao ≠ [] then some (entryOf r0)
    else match (r0 :: rest).find? (fun r => decide (r.inscricao ≠ [])) with
      | some r1 => some (entryOf r1)
      | none => some (entryOf r0)

/-! ## Check-in cache (`initSheets`, day-table phase) -/

/-- Resolved day-table column indices. -/
structure ChkIdx where
  iInscr : Nat
  iNome : Nat
  iData : Nat
  iHora : Nat
deriving DecidableEq, Repr

/-- Cached day-table configuration (`state.checkin[day]`). -/
structure ChkCfg where
  headers : List CS
  idx : ChkIdx
deriving DecidableEq, Repr

/-- Raw remote day sheet: header row plus data rows (cells aligned with the
headers). -/
structure DaySheet where
  headers : List CS
  rows : List (List CS)
deriving DecidableEq, Repr

/-- Day-table column resolution of `initSheets`: normalise the headers, pick
the registration column with `pickInscricaoIndex`, the name/date/time columns
by their substring or exact matches; `none` when any is missing. -/
def resolveChk (headers : List CS) : Option ChkCfg :=
  let norm := headers.map normalizeHeader
  let iInscr := pickInscricaoIndex norm
  match findIdxCS (fun h => includesCS h nomeCS) norm,
        findIdxCS (fun h => decide (h = dataCS)) norm,
        findIdxCS (fun h => includesCS h horarioCS) norm with
  | some n, some d, some h =>
    if 0 ≤ iInscr then some ⟨headers, ⟨iInscr.toNat, n, d, h⟩⟩ else none
  | _, _, _ => none

/-- `Set.add`. -/
def setAdd (s : List CS) (v : CS) : List CS := if v ∈ s then s else v :: s

/-- Cell of a row at a column index (missing cells read as `''`). -/
def cellAt (row : List CS) (i : Nat) : CS := (row.get? i).getD []

/-- Rebuild of a day's duplicate set: trimmed registration-number cells of all
rows, empty values skipped. -/
def buildDaySet (ds : DaySheet) (cfg : ChkCfg) : List CS :=
  ds.rows.foldl (fun set row =>
    let val := trimWs (cellAt row cfg.idx.iInscr)
    if val ≠ [] then setAdd set val else set) []

/-! ## Process-wide state and the refresh cycle -/

/-- The process-wide `state` container. -/
structure ServerState where
  ready : Bool
  indexByCPF : List (CS × Entry)
  chkDia1 : Option ChkCfg
  chkDia2 : Option ChkCfg
  setDia1 : List CS
  setDia2 : List CS
deriving DecidableEq, Repr

/-- `state.checkin[day]` (column configuration). -/
def ServerState.chkOf (st : ServerState) : Day → Option ChkCfg
  | .Dia1 => st.chkDia1
  | .Dia2 => st.chkDia2

/-- `state.checkin.setInscr[day]`. -/
def ServerState.setOf (st : ServerState) : Day → List CS
  | .Dia1 => st.setDia1
  | .Dia2 => st.setDia2

/-- In-place update of a day's column configuration. -/
def ServerState.withChk (st : ServerState) : Day → ChkCfg → ServerState
  | .Dia1, c => { st with chkDia1 := some c }
  | .Dia2, c => { st with chkDia2 := some c }

/-- In-place update of a day's duplicate set. -/
def ServerState.withSet (st : ServerState) : Day → List CS → ServerState
  | .Dia1, s => { st with setDia1 := s }
  | .Dia2, s => { st with setDia2 := s }

/-- Remote data consumed by one refresh cycle: the flattened profile rows and
the two (optional) day sheets. -/
structure RemoteData where
  profileRows : List RawRow
  dia1 : Option DaySheet
  dia2 : Option DaySheet
deriving DecidableEq, Repr

/-- One day-table iteration of `initSheets`.  Returns the states observable by
concurrent requests while this iteration is suspended at an `await`
(`loadHeaderRow`, then `getRows` after the in-place config assignment), and
the state after the synchronous duplicate-set rebuild. -/
def dayStep (st : ServerState) (d : Day) : Option DaySheet → List ServerState × ServerState
  | none => ([], st)
  | some ds =>
    match resolveChk ds.headers with
    | none => ([st], st)
    | some cfg =>
      let stA := st.withChk d cfg
      ([st, stA], stA.withSet d (buildDaySet ds cfg))

/-- The refresh cycle (`initSheets`) as the sequence of states observable by
concurrent requests at its `await` suspension points, ending with the state
after the final synchronous `indexByCPF`/`ready` swap.  `none` models a
failure of `useServiceAccountAuth`/`loadInfo` (the caught rejection leaves the
state untouched). -/
def refreshTrace (st : ServerState) : Option RemoteData → List ServerState
  | none => [st]
  | some rd =>
    let p1 := dayStep st .Dia1 rd.dia1
    let p2 := dayStep p1.2 .Dia2 rd.dia2
    st :: p1.1 ++ p2.1 ++
      [{ p2.2 with indexByCPF := buildIndex rd.profileRows, ready := true }]

/-! ## Retry wrapper (`withRetry`) -/

/-- A rejection from the remote store: `e?.response?.status` and `e?.code`. -/
structure RemoteErr where
  respStatus : Option Nat
  code : Option CS
deriving DecidableEq, Repr

/-- `status === 429 || status === 'ECONNRESET' || status === 'ETIMEDOUT'`
where `status = e?.response?.status || e?.code`. -/
def isTransient (e : RemoteErr) : Bool :=
  match e.respStatus with
  | some s => decide (s = 429)
  | none => decide (e.code = some econnresetCS) || decide (e.code = some etimedoutCS)

deriving instance DecidableEq for Except

/-- Observable behaviour of one `withRetry` run: final result, number of
invocations of the wrapped function, and the backoff delays awaited (ms). -/
structure RetryTrace (α : Type) where
  result : Except RemoteErr α
  attempts : Nat
  delays : List Nat
deriving DecidableEq

/-- `withRetry(fn, tries, baseMs)`;  `calls k` is the outcome of the `k`-th
invocation of `fn` (the remote write is external input). -/
def withRetry {α : Type} (calls : Nat → Except RemoteErr α) (tries baseMs k : Nat) :
    RetryTrace α :=
  match calls k with
  | .ok a => ⟨.ok a, 1, []⟩
  | .error e =>
    if h : 1 < tries ∧ isTransient e = true then
      let wait := baseMs * 2 ^ (3 - tries)
      let rest := withRetry calls (tries - 1) baseMs (k + 1)
      ⟨rest.result, rest.attempts + 1, wait :: rest.delays⟩
    else ⟨.error e, 1, []⟩
termination_by tries
decreasing_by omega

/-! ## The `/confirm` handler -/

/-- Joi schema: exactly 11 ASCII digits. -/
def validCpf (cpf : CS) : Prop := cpf.length = 11 ∧ ∀ c ∈ cpf, 48 ≤ c ∧ c ≤ 57

instance (cpf : CS) : Decidable (validCpf cpf) :=
  inferInstanceAs (Decidable (_ ∧ _))

/-- Terminal outcomes of the `/confirm` handler, one per response shape. -/
inductive Outcome where
  | invalidInput
  | serviceNotReady
  | notRegistered
  | noRegistration (nome : CS)
  | outsideWaiting (nome : CS) (proximoDia : Day) (labelDia : CS) (horas minutos : CS)
  | eventClosed
  | outsideGeneric
  | misconfigured (day : Day)
  | alreadyConfirmed (nome inscricao : CS) (dia : Day)
  | serviceBusy
  | internalError
  | success (inscricao nome : CS) (dia : Day) (data hora : CS)
deriving DecidableEq, Repr

/-- A check-in row passed to `addRow`. -/
structure Row where
  inscricao : CS
  nome : CS
  data : CS
  hora : CS
deriving DecidableEq, Repr

/-- Result of one `/confirm` request: outcome, post-request process state, and
the rows durably appended to the remote day-table by this request. -/
structure ConfirmResult where
  outcome : Outcome
  state : ServerState
  appends : List Row
deriving DecidableEq

/-- The `/confirm` handler.  `now` is the current minute, `calls` the external
outcomes of the successive `addRow` invocations made through `withRetry`, and
`dataStr`/`horaStr` the locale-formatted date/time strings of the moment. -/
def confirm (st : ServerState) (now : Int) (cpf : CS)
    (calls : Nat → Except RemoteErr Unit) (dataStr horaStr : CS) : ConfirmResult :=
  if ¬ validCpf cpf then ⟨.invalidInput, st, []⟩
  else if st.ready = false then ⟨.serviceNotReady, st, []⟩
  else
    match tlookup st.indexByCPF cpf with
    | none => ⟨.notRegistered, st, []⟩
    | some e =>
      if e.inscricao = [] then ⟨.noRegistration e.nome, st, []⟩
      else
        match getWindowStatus now with
        | .before nextDay nextStart label =>
          let tm := totalMin nextStart now
          ⟨.outsideWaiting e.nome nextDay label (pad2 (tm / 60)) (pad2 (tm % 60)), st, []⟩
        | .after => ⟨.eventClosed, st, []⟩
        | .unknown => ⟨.outsideGeneric, st, []⟩
        | .opened day =>
          match st.chkOf day with
          | none => ⟨.misconfigured day, st, []⟩
          | some _cfg =>
            if e.inscricao ∈ st.setOf day then
              ⟨.alreadyConfirmed e.nome e.inscricao day, st, []⟩
            else
              match (withRetry calls 3 300 0).result with
              | .ok _ =>
                ⟨.success e.inscricao e.nome day dataStr horaStr,
                  st.withSet day (setAdd (st.setOf day) e.inscricao),
                  [⟨e.inscricao, e.nome, dataStr, horaStr⟩]⟩
              | .error err =>
                ⟨if err.respStatus = some 429 then .serviceBusy else .internalError,
                  st, []⟩

/-! ## Theorems -/

/-- C7: the time-window classifier is exhaustive over the two hard-coded
closed intervals: the interval bounds are ordered
(Day-1 start ≤ Day-1 end < Day-2 start ≤ Day-2 end), and for every instant at
minute granularity the classifier returns one of open-Day1, open-Day2,
before-Day1, before-Day2 or after - the `unknown` fallback branch is
unreachable. -/
theorem getWindowStatus_exhaustive :
    (d1Start ≤ d1End ∧ d1End < d2Start ∧ d2Start ≤ d2End) ∧
    ∀ now : Int, getWindowStatus now ≠ WinStatus.unknown := by
  constructor
  · exact ⟨by decide, by decide, by decide⟩
  · intro now
    unfold getWindowStatus
    split_ifs with h1 h2 h3 h4 h5 <;> try simp
    revert h1 h2 h3 h4 h5
    simp only [d1Start, d1End, d2Start, d2End, spMinutes]
    omega

/-- C8: whenever the classifier returns `before`, the countdown of the
`OutsideWindowWaiting` response equals the number of whole minutes until that
window's start (non-negative since `now < nextStart`), it strictly decreases
as the current minute advances toward the window start, `proximoDia = Dia1`
holds exactly when the time is strictly before Day-1 start, and the handler
reports it split into zero-padded hours and minutes. -/
theorem countdown_spec (now : Int) (nd : Day) (ns : Int) (lbl : CS)
    (hb : getWindowStatus now = .before nd ns lbl) :
    now < ns ∧ (totalMin ns now : Int) = ns - now ∧
    (∀ now2 : Int, now < now2 → now2 < ns → totalMin ns now2 < totalMin ns now) ∧
    (now < d1Start → nd = Day.Dia1 ∧ ns = d1Start) ∧
    (∀ (st : ServerState) (cpf : CS) (e : Entry)
      (calls : Nat → Except RemoteErr Unit) (dataStr horaStr : CS),
      validCpf cpf → st.ready = true → tlookup st.indexByCPF cpf = some e →
      e.inscricao ≠ [] →
      (confirm st now cpf calls dataStr horaStr).outcome =
        .outsideWaiting e.nome nd lbl
          (pad2 (totalMin ns now / 60)) (pad2 (totalMin ns now % 60))) := by
  have hlt : now < ns ∧ (now < d1Start → nd = Day.Dia1 ∧ ns = d1Start) := by
    unfold getWindowStatus at hb
    split_ifs at hb with h1 h2 h3 h4 h5
    · rw [WinStatus.before.injEq] at hb
      obtain ⟨hnd, hns, -⟩ := hb
      exact ⟨hns ▸ h3, fun _ => ⟨hnd.symm, hns.symm⟩⟩
    · rw [WinStatus.before.injEq] at hb
      obtain ⟨hnd, hns, -⟩ := hb
      exact ⟨hns ▸ h4.2, fun hlt1 => absurd hlt1 h3⟩
  refine ⟨hlt.1, ?_, ?_, hlt.2, ?_⟩
  · unfold totalMin; omega
  · intro now2 h12 h2s
    unfold totalMin
    omega
  · intro st cpf e calls dataStr horaStr hv hr hl hi
    simp [confirm, hv, hr, hl, hb, hi]

/-- C8 witness: the countdown theorem applied at minute 17000, which lies
strictly before the Day-1 window start. -/
theorem countdown_spec_witness :
    getWindowStatus 17000 = .before Day.Dia1 d1Start primeiroDiaCS ∧
    ((17000 : Int) < d1Start ∧ (totalMin d1Start 17000 : Int) = d1Start - 17000 ∧
      (∀ now2 : Int, 17000 < now2 → now2 < d1Start →
        totalMin d1Start now2 < totalMin d1Start 17000) ∧
      ((17000 : Int) < d1Start → Day.Dia1 = Day.Dia1 ∧ d1Start = d1Start) ∧
      (∀ (st : ServerState) (cpf : CS) (e : Entry)
        (calls : Nat → Except RemoteErr Unit) (dataStr horaStr : CS),
        validCpf cpf → st.ready = true → tlookup st.indexByCPF cpf = some e →
        e.inscricao ≠ [] →
        (confirm st 17000 cpf calls dataStr horaStr).outcome =
          .outsideWaiting e.nome Day.Dia1 primeiroDiaCS
            (pad2 (totalMin d1Start 17000 / 60)) (pad2 (totalMin d1Start 17000 % 60)))) :=
  ⟨by decide, countdown_spec 17000 Day.Dia1 d1Start primeiroDiaCS (by decide)⟩

/-- C6: through `withRetry` the remote append is attempted at most 3 times in
total; every retry follows a transient failure (HTTP 429 or ECONNRESET or
ETIMEDOUT), the backoff delays awaited are the leading `attempts - 1` entries
of the exponential 300ms/600ms/1200ms schedule (so at most 300ms and 600ms
are ever slept), and the final result is the outcome of the last attempt - in
particular any non-transient failure propagates immediately, without retry. -/
theorem withRetry_spec {α : Type} (calls : Nat → Except RemoteErr α) :
    1 ≤ (withRetry calls 3 300 0).attempts ∧
    (withRetry calls 3 300 0).attempts ≤ 3 ∧
    (withRetry calls 3 300 0).delays =
      [300, 600, 1200].take ((withRetry calls 3 300 0).attempts - 1) ∧
    (∀ i, i + 1 < (withRetry calls 3 300 0).attempts →
      ∃ e, calls i = .error e ∧ isTransient e = true) ∧
    (withRetry calls 3 300 0).result = calls ((withRetry calls 3 300 0).attempts - 1) := by
  rcases h0 : calls 0 with e0 | a0
  · by_cases ht0 : isTransient e0 = true
    · rcases h1 : calls 1 with e1 | a1
      · by_cases ht1 : isTransient e1 = true
        · rcases h2 : calls 2 with e2 | a2
          · have ht : withRetry calls 3 300 0 = ⟨.error e2, 3, [300, 600]⟩ := by
              simp [withRetry, h0, h1, h2, ht0, ht1]
            rw [ht]
            refine ⟨by show (1:Nat) ≤ 3; decide, by show (3:Nat) ≤ 3; decide, rfl, ?_,
              by simp [h2]⟩
            intro i hi
            match i, hi with
            | 0, _ => exact ⟨e0, h0, ht0⟩
            | 1, _ => exact ⟨e1, h1, ht1⟩
            | n + 2, h => exact absurd (show n + 2 + 1 < 3 from h) (by omega)
          · have ht : withRetry calls 3 300 0 = ⟨.ok a2, 3, [300, 600]⟩ := by
              simp [withRetry, h0, h1, h2, ht0, ht1]
            rw [ht]
            refine ⟨by show (1:Nat) ≤ 3; decide, by show (3:Nat) ≤ 3; decide, rfl, ?_,
              by simp [h2]⟩
            intro i hi
            match i, hi with
            | 0, _ => exact ⟨e0, h0, ht0⟩
            | 1, _ => exact ⟨e1, h1, ht1⟩
            | n + 2, h => exact absurd (show n + 2 + 1 < 3 from h) (by omega)
        · have ht : withRetry calls 3 300 0 = ⟨.error e1, 2, [300]⟩ := by
            simp [withRetry, h0, h1, ht0, ht1]
          rw [ht]
          refine ⟨by show (1:Nat) ≤ 2; decide, by show (2:Nat) ≤ 3; decide, rfl, ?_,
            by simp [h1]⟩
          intro i hi
          match i, hi with
          | 0, _ => exact ⟨e0, h0, ht0⟩
          | n + 1, h => exact absurd (show n + 1 + 1 < 2 from h) (by omega)
      · have ht : withRetry calls 3 300 0 = ⟨.ok a1, 2, [300]⟩ := by
          simp [withRetry, h0, h1, ht0]
        rw [ht]
        refine ⟨by show (1:Nat) ≤ 2; decide, by show (2:Nat) ≤ 3; decide, rfl, ?_,
          by simp [h1]⟩
        intro i hi
        match i, hi with
        | 0, _ => exact ⟨e0, h0, ht0⟩
        | n + 1, h => exact absurd (show n + 1 + 1 < 2 from h) (by omega)
    · have ht : withRetry calls 3 300 0 = ⟨.error e0, 1, []⟩ := by
        simp [withRetry, h0, ht0]
      rw [ht]
      refine ⟨by show (1:Nat) ≤ 1; decide, by show (1:Nat) ≤ 3; decide, rfl, ?_,
        by simp [h0]⟩
      intro i hi
      exact absurd (show i + 1 < 1 from hi) (by omega)
  · have ht : withRetry calls 3 300 0 = ⟨.ok a0, 1, []⟩ := by
      simp [withRetry, h0]
    rw [ht]
    refine ⟨by show (1:Nat) ≤ 1; decide, by show (1:Nat) ≤ 3; decide, rfl, ?_,
      by simp [h0]⟩
    intro i hi
    exact absurd (show i + 1 < 1 from hi) (by omega)

/-- Helper: `findIdxCS` finds nothing exactly when no element satisfies the
predicate. -/
theorem findIdxCS_eq_none_iff (p : CS → Bool) :
    ∀ l : List CS, findIdxCS p l = none ↔ ∀ h ∈ l, p h = false
  | [] => by simp [findIdxCS]
  | h :: t => by
    by_cases hp : p h <;>
      simp [findIdxCS, hp, findIdxCS_eq_none_iff p t]

/-- Helper: the index component of the first filtered enumerated pair is
`findIdxCS`, shifted by the enumeration offset. -/
theorem enumFrom_filter_fst (p : CS → Bool) :
    ∀ (l : List CS) (n : Nat),
      ((((List.enumFrom n l).filter (fun x => p x.2)).head?).map Prod.fst) =
        (findIdxCS p l).map (· + n)
  | [], _ => by simp [findIdxCS]
  | h :: t, n => by
    by_cases hp : p h
    · simp [List.enumFrom, findIdxCS, hp]
    · have ih := enumFrom_filter_fst p t (n + 1)
      simp only [List.enumFrom, List.filter_cons, hp, findIdxCS, Bool.false_eq_true,
        if_false, ite_false] at ih ⊢
      rw [ih]
      cases findIdxCS p t <;> simp <;> omega

/-- Helper: `pickInscricaoIndex` implements the spec's disambiguation rule:
first "inscr" header free of status/situacao/tipo/categoria, else the first
"inscr" header, else `-1`. -/
theorem pickInscricaoIndex_eq_disambig (normHeads : List CS) :
    pickInscricaoIndex normHeads = disambigInscrIndex normHeads := by
  have k1 := enumFrom_filter_fst (fun h => includesCS h inscrCS) normHeads 0
  have k2 := enumFrom_filter_fst (fun h => includesCS h inscrCS && cleanHeader h) normHeads 0
  simp only [Nat.add_zero] at k1 k2
  unfold pickInscricaoIndex disambigInscrIndex simpleInscrIndex
  rw [List.enum]
  cases hc : (List.enumFrom 0 normHeads).filter (fun x => includesCS x.2 inscrCS) with
  | nil =>
    rw [hc] at k1
    simp only [List.head?, Option.map_none'] at k1
    have hnone : findIdxCS (fun h => includesCS h inscrCS) normHeads = none := by
      cases h : findIdxCS (fun h => includesCS h inscrCS) normHeads with
      | none => rfl
      | some i => rw [h] at k1; simp at k1
    have hnone2 : findIdxCS (fun h => includesCS h inscrCS && cleanHeader h) normHeads = none := by
      rw [findIdxCS_eq_none_iff]
      intro h hh
      have := (findIdxCS_eq_none_iff _ normHeads).mp hnone h hh
      simp [this]
    simp [hnone, hnone2]
  | cons c0 rest =>
    rw [hc] at k1
    simp only [List.head?_cons, Option.map_some'] at k1
    have hcland : (c0 :: rest).filter (fun x => cleanHeader x.2) =
        (List.enumFrom 0 normHeads).filter
          (fun x => includesCS x.2 inscrCS && cleanHeader x.2) := by
      rw [← hc, List.filter_filter]
      exact List.filter_congr (fun x _ => Bool.and_comm _ _)
    dsimp only
    rw [hcland]
    cases hcl : (List.enumFrom 0 normHeads).filter
        (fun x => includesCS x.2 inscrCS && cleanHeader x.2) with
    | nil =>
      rw [hcl] at k2
      simp only [List.head?, Option.map_none'] at k2
      have hn2 : findIdxCS (fun h => includesCS h inscrCS && cleanHeader h) normHeads = none := by
        cases h : findIdxCS (fun h => includesCS h inscrCS && cleanHeader h) normHeads with
        | none => rfl
        | some i => rw [h] at k2; simp at k2
      have hs : findIdxCS (fun h => includesCS h inscrCS) normHeads = some c0.1 := by
        cases h : findIdxCS (fun h => includesCS h inscrCS) normHeads with
        | none => rw [h] at k1; simp at k1
        | some i => rw [h] at k1; simp at k1; rw [k1]
      simp [hn2, hs]
    | cons y ys =>
      rw [hcl] at k2
      simp only [List.head?_cons, Option.map_some'] at k2
      have hs2 : findIdxCS (fun h => includesCS h inscrCS && cleanHeader h) normHeads =
          some y.1 := by
        cases h : findIdxCS (fun h => includesCS h inscrCS && cleanHeader h) normHeads with
        | none => rw [h] at k2; simp at k2
        | some i => rw [h] at k2; simp at k2; rw [k2]
      simp [hs2]

/-- C5 counterexample: for the day-table header row
"Status da Inscrição" / "Inscrição" / "Nome" / "Data" / "Horário" the check-in
resolver (which calls `pickInscricaoIndex`) selects column 1, while the first
header whose normalised form contains "inscr" is column 0 - so the claimed
simple-substring rule disagrees with the code on this header list. -/
theorem checkinInscr_simple_cex :
    (resolveChk [[83, 116, 97, 116, 117, 115, 32, 100, 97, 32, 73, 110, 115, 99, 114, 105, 231, 227, 111],
        [73, 110, 115, 99, 114, 105, 231, 227, 111], [78, 111, 109, 101], [68, 97, 116, 97],
        [72, 111, 114, 225, 114, 105, 111]]).map (fun c => c.idx.iInscr) = some 1 ∧
    simpleInscrIndex ([[83, 116, 97, 116, 117, 115, 32, 100, 97, 32, 73, 110, 115, 99, 114, 105, 231, 227, 111],
        [73, 110, 115, 99, 114, 105, 231, 227, 111], [78, 111, 109, 101], [68, 97, 116, 97],
        [72, 111, 114, 225, 114, 105, 111]].map normalizeHeader) = 0 ∧
    pickInscricaoIndex ([[83, 116, 97, 116, 117, 115, 32, 100, 97, 32, 73, 110, 115, 99, 114, 105, 231, 227, 111],
        [73, 110, 115, 99, 114, 105, 231, 227, 111], [78, 111, 109, 101], [68, 97, 116, 97],
        [72, 111, 114, 225, 114, 105, 111]].map normalizeHeader) ≠
      simpleInscrIndex ([[83, 116, 97, 116, 117, 115, 32, 100, 97, 32, 73, 110, 115, 99, 114, 105, 231, 227, 111],
        [73, 110, 115, 99, 114, 105, 231, 227, 111], [78, 111, 109, 101], [68, 97, 116, 97],
        [72, 111, 114, 225, 114, 105, 111]].map normalizeHeader) := by
  refine ⟨by decide, by decide, by decide⟩

/-- C5 (amended): the check-in (day-table) registration column is resolved by
the same disambiguation rule as the profile tables, `pickInscricaoIndex`: for
every successfully resolved day-table header row, the chosen registration
column index is the first normalised header containing "inscr" that is free
of "status"/"situacao"/"tipo"/"categoria", falling back to the first header
containing "inscr" (it agrees with the simple substring match only when no
status-like "inscr" header precedes). -/
theorem checkinInscr_resolution (headers : List CS) (cfg : ChkCfg)
    (h : resolveChk headers = some cfg) :
    (cfg.idx.iInscr : Int) = disambigInscrIndex (headers.map normalizeHeader) := by
  unfold resolveChk at h
  dsimp only at h
  split at h
  · split_ifs at h with hpos
    · injection h with h'
      rw [← h']
      dsimp only
      rw [Int.toNat_of_nonneg hpos]
      exact pickInscricaoIndex_eq_disambig _
  · exact absurd h (by simp)

/-- C5 amended-claim witness: the resolution theorem applied to the header row
of the counterexample, whose resolved registration column is 1. -/
theorem checkinInscr_resolution_witness :
    resolveChk [[83, 116, 97, 116, 117, 115, 32, 100, 97, 32, 73, 110, 115, 99, 114, 105, 231, 227, 111],
        [73, 110, 115, 99, 114, 105, 231, 227, 111], [78, 111, 109, 101], [68, 97, 116, 97],
        [72, 111, 114, 225, 114, 105, 111]] =
      some ⟨[[83, 116, 97, 116, 117, 115, 32, 100, 97, 32, 73, 110, 115, 99, 114, 105, 231, 227, 111],
        [73, 110, 115, 99, 114, 105, 231, 227, 111], [78, 111, 109, 101], [68, 97, 116, 97],
        [72, 111, 114, 225, 114, 105, 111]], ⟨1, 2, 3, 4⟩⟩ ∧
    ((1 : Nat) : Int) = disambigInscrIndex
      ([[83, 116, 97, 116, 117, 115, 32, 100, 97, 32, 73, 110, 115, 99, 114, 105, 231, 227, 111],
        [73, 110, 115, 99, 114, 105, 231, 227, 111], [78, 111, 109, 101], [68, 97, 116, 97],
        [72, 111, 114, 225, 114, 105, 111]].map normalizeHeader) := by
  have hres : resolveChk [[83, 116, 97, 116, 117, 115, 32, 100, 97, 32, 73, 110, 115, 99, 114, 105, 231, 227, 111],
      [73, 110, 115, 99, 114, 105, 231, 227, 111], [78, 111, 109, 101], [68, 97, 116, 97],
      [72, 111, 114, 225, 114, 105, 111]] =
    some ⟨[[83, 116, 97, 116, 117, 115, 32, 100, 97, 32, 73, 110, 115, 99, 114, 105, 231, 227, 111],
      [73, 110, 115, 99, 114, 105, 231, 227, 111], [78, 111, 109, 101], [68, 97, 116, 97],
      [72, 111, 114, 225, 114, 105, 111]], ⟨1, 2, 3, 4⟩⟩ := by decide
  exact ⟨hres, checkinInscr_resolution _ _ hres⟩

/-- Helper: updating a day's duplicate set does not change readiness. -/
theorem withSet_ready (st : ServerState) (d : Day) (s : List CS) :
    (st.withSet d s).ready = st.ready := by cases d <;> rfl

/-- Helper: updating a day's duplicate set does not change the roster index. -/
theorem withSet_index (st : ServerState) (d : Day) (s : List CS) :
    (st.withSet d s).indexByCPF = st.indexByCPF := by cases d <;> rfl

/-- Helper: updating a day's duplicate set does not change any day
configuration. -/
theorem withSet_chkOf (st : ServerState) (d : Day) (s : List CS) (d' : Day) :
    (st.withSet d s).chkOf d' = st.chkOf d' := by cases d <;> cases d' <;> rfl

/-- Helper: reading back the day's duplicate set after updating it. -/
theorem withSet_setOf_same (st : ServerState) (d : Day) (s : List CS) :
    (st.withSet d s).setOf d = s := by cases d <;> rfl

/-- Helper: updating a day configuration does not change readiness. -/
theorem withChk_ready (st : ServerState) (d : Day) (c : ChkCfg) :
    (st.withChk d c).ready = st.ready := by cases d <;> rfl

/-- Helper: updating a day configuration does not change the roster index. -/
theorem withChk_index (st : ServerState) (d : Day) (c : ChkCfg) :
    (st.withChk d c).indexByCPF = st.indexByCPF := by cases d <;> rfl

/-- C2 counterexample: a ready process whose roster index does not contain the
(valid, 11-digit) identity number 00000000000 answers `NotRegistered` at
minute 19801, which lies strictly after the Day-2 window end - not
`EventClosed` as the claim demands for unregistered callers. -/
theorem eventClosed_unregistered_cex :
    d2End < 19801 ∧
    (confirm ⟨true, [], none, none, [], []⟩ 19801
      [48, 48, 48, 48, 48, 48, 48, 48, 48, 48, 48] (fun _ => .ok ()) [] []).outcome =
      .notRegistered ∧
    Outcome.notRegistered ≠ Outcome.eventClosed := by
  exact ⟨by decide, by decide, by decide⟩

/-- C2 (amended): after the Day-2 window end, every request from an identity
number present in the roster with a non-empty registration number gets
`EventClosed`; identity numbers absent from the roster get `NotRegistered`
instead, because the registration check precedes the window check. -/
theorem after_event_outcomes (st : ServerState) (now : Int) (cpf : CS)
    (calls : Nat → Except RemoteErr Unit) (dataStr horaStr : CS)
    (hv : validCpf cpf) (hr : st.ready = true) (ha : d2End < now) :
    (tlookup st.indexByCPF cpf = none →
      (confirm st now cpf calls dataStr horaStr).outcome = .notRegistered) ∧
    (∀ e : Entry, tlookup st.indexByCPF cpf = some e → e.inscricao ≠ [] →
      (confirm st now cpf calls dataStr horaStr).outcome = .eventClosed) := by
  have c1 : d1Start ≤ d1End := by decide
  have c2 : d1End < d2Start := by decide
  have c3 : d2Start ≤ d2End := by decide
  have hw : getWindowStatus now = .after := by
    unfold getWindowStatus
    rw [if_neg (by omega), if_neg (by omega), if_neg (by omega), if_neg (by omega),
      if_pos (by omega)]
  constructor
  · intro hl
    simp [confirm, hv, hr, hl]
  · intro e hl hi
    simp [confirm, hv, hr, hl, hi, hw]

/-- C2 amended-claim witness: at minute 19801 (after Day-2 end) the registered
identity 11111111111 (registration number "A1") gets `EventClosed`, and the
absent identity 00000000000 gets `NotRegistered`. -/
theorem after_event_outcomes_witness :
    (confirm ⟨true, [([49, 49, 49, 49, 49, 49, 49, 49, 49, 49, 49], ⟨[83], [78], [65, 49]⟩)],
        none, none, [], []⟩ 19801
      [49, 49, 49, 49, 49, 49, 49, 49, 49, 49, 49] (fun _ => .ok ()) [] []).outcome =
      .eventClosed ∧
    (confirm ⟨true, [([49, 49, 49, 49, 49, 49, 49, 49, 49, 49, 49], ⟨[83], [78], [65, 49]⟩)],
        none, none, [], []⟩ 19801
      [48, 48, 48, 48, 48, 48, 48, 48, 48, 48, 48] (fun _ => .ok ()) [] []).outcome =
      .notRegistered :=
  ⟨(after_event_outcomes _ 19801 _ _ [] [] (by decide) (by decide) (by decide)).2
      ⟨[83], [78], [65, 49]⟩ (by decide) (by decide),
    (after_event_outcomes _ 19801 _ _ [] [] (by decide) (by decide) (by decide)).1 (by decide)⟩

/-- C1: for an identity number present in the roster index with a non-empty
registration number, while the window is open, the first confirmation whose
remote append succeeds returns success, appends exactly one check-in row, and
adds the registration number to the day's local duplicate set (only that set
changes); after it, every request with the same identity number while the
same day-table is open answers `AlreadyConfirmed` (carrying name,
registration number and day), appends nothing remotely, and leaves the state
unchanged - so at most one confirmation succeeds per day-table. -/
theorem confirm_once_then_dup (st : ServerState) (now : Int) (cpf : CS) (e : Entry)
    (calls : Nat → Except RemoteErr Unit) (dataStr horaStr : CS) (day : Day) (cfg : ChkCfg)
    (hv : validCpf cpf) (hr : st.ready = true)
    (hl : tlookup st.indexByCPF cpf = some e) (hi : e.inscricao ≠ [])
    (hw : getWindowStatus now = .opened day) (hc : st.chkOf day = some cfg)
    (hns : e.inscricao ∉ st.setOf day)
    (hok : (withRetry calls 3 300 0).result = .ok ()) :
    confirm st now cpf calls dataStr horaStr =
      ⟨.success e.inscricao e.nome day dataStr horaStr,
        st.withSet day (e.inscricao :: st.setOf day),
        [⟨e.inscricao, e.nome, dataStr, horaStr⟩]⟩ ∧
    ∀ (now2 : Int) (calls2 : Nat → Except RemoteErr Unit) (dataStr2 horaStr2 : CS),
      getWindowStatus now2 = .opened day →
      confirm (st.withSet day (e.inscricao :: st.setOf day)) now2 cpf calls2 dataStr2 horaStr2 =
        ⟨.alreadyConfirmed e.nome e.inscricao day,
          st.withSet day (e.inscricao :: st.setOf day), []⟩ := by
  constructor
  · simp [confirm, hv, hr, hl, hi, hw, hc, hns, hok, setAdd]
  · intro now2 calls2 dataStr2 horaStr2 hw2
    have hr2 : (st.withSet day (e.inscricao :: st.setOf day)).ready = true := by
      rw [withSet_ready]; exact hr
    have hl2 : tlookup (st.withSet day (e.inscricao :: st.setOf day)).indexByCPF cpf = some e := by
      rw [withSet_index]; exact hl
    have hc2 : (st.withSet day (e.inscricao :: st.setOf day)).chkOf day = some cfg := by
      rw [withSet_chkOf]; exact hc
    have hm : e.inscricao ∈ (st.withSet day (e.inscricao :: st.setOf day)).setOf day := by
      rw [withSet_setOf_same]; exact List.mem_cons_self _ _
    simp [confirm, hv, hr2, hl2, hi, hw2, hc2, hm]

/-- C1 witness: a ready state with identity 11111111111 (name "N",
registration "A1") and an empty Day-1 duplicate set, at minute 18000 inside
the Day-1 window, with an immediately successful remote append. -/
theorem confirm_once_then_dup_witness :
    validCpf [49, 49, 49, 49, 49, 49, 49, 49, 49, 49, 49] ∧
    getWindowStatus 18000 = .opened .Dia1 ∧
    (confirm ⟨true, [([49, 49, 49, 49, 49, 49, 49, 49, 49, 49, 49], ⟨[83], [78], [65, 49]⟩)],
          some ⟨[], ⟨0, 0, 0, 0⟩⟩, none, [], []⟩ 18000
        [49, 49, 49, 49, 49, 49, 49, 49, 49, 49, 49] (fun _ => .ok ()) [68] [72] =
      ⟨.success [65, 49] [78] .Dia1 [68] [72],
        (⟨true, [([49, 49, 49, 49, 49, 49, 49, 49, 49, 49, 49], ⟨[83], [78], [65, 49]⟩)],
          some ⟨[], ⟨0, 0, 0, 0⟩⟩, none, [], []⟩ : ServerState).withSet .Dia1
          ([65, 49] :: ([] : List CS)),
        [⟨[65, 49], [78], [68], [72]⟩]⟩ ∧
      ∀ (now2 : Int) (calls2 : Nat → Except RemoteErr Unit) (dataStr2 horaStr2 : CS),
        getWindowStatus now2 = .opened .Dia1 →
        confirm ((⟨true, [([49, 49, 49, 49, 49, 49, 49, 49, 49, 49, 49], ⟨[83], [78], [65, 49]⟩)],
            some ⟨[], ⟨0, 0, 0, 0⟩⟩, none, [], []⟩ : ServerState).withSet .Dia1
            ([65, 49] :: ([] : List CS))) now2
          [49, 49, 49, 49, 49, 49, 49, 49, 49, 49, 49] calls2 dataStr2 horaStr2 =
          ⟨.alreadyConfirmed [78] [65, 49] .Dia1,
            (⟨true, [([49, 49, 49, 49, 49, 49, 49, 49, 49, 49, 49], ⟨[83], [78], [65, 49]⟩)],
              some ⟨[], ⟨0, 0, 0, 0⟩⟩, none, [], []⟩ : ServerState).withSet .Dia1
              ([65, 49] :: ([] : List CS)), []⟩) :=
  ⟨by decide, by decide,
    confirm_once_then_dup _ 18000 _ ⟨[83], [78], [65, 49]⟩ _ [68] [72] .Dia1 ⟨[], ⟨0, 0, 0, 0⟩⟩
      (by decide) (by decide) (by decide) (by decide) (by decide) (by decide) (by decide)
      (by simp [withRetry])⟩

/-- C10: when the remote append fails (after retries or with a non-retryable
error), the day's duplicate set - indeed the whole process state - is left
unchanged and no row is durably appended, the failure is reported as
`ServiceBusy` when the error carries HTTP status 429 and as `InternalError`
otherwise, and a later identical request whose remote append succeeds still
confirms the attendee. -/
theorem confirm_append_failure (st : ServerState) (now : Int) (cpf : CS) (e : Entry)
    (calls : Nat → Except RemoteErr Unit) (dataStr horaStr : CS) (day : Day) (cfg : ChkCfg)
    (err : RemoteErr)
    (hv : validCpf cpf) (hr : st.ready = true)
    (hl : tlookup st.indexByCPF cpf = some e) (hi : e.inscricao ≠ [])
    (hw : getWindowStatus now = .opened day) (hc : st.chkOf day = some cfg)
    (hns : e.inscricao ∉ st.setOf day)
    (herr : (withRetry calls 3 300 0).result = .error err) :
    confirm st now cpf calls dataStr horaStr =
      ⟨if err.respStatus = some 429 then .serviceBusy else .internalError, st, []⟩ ∧
    ∀ calls2 : Nat → Except RemoteErr Unit,
      (withRetry calls2 3 300 0).result = .ok () →
      confirm st now cpf calls2 dataStr horaStr =
        ⟨.success e.inscricao e.nome day dataStr horaStr,
          st.withSet day (e.inscricao :: st.setOf day),
          [⟨e.inscricao, e.nome, dataStr, horaStr⟩]⟩ := by
  constructor
  · simp [confirm, hv, hr, hl, hi, hw, hc, hns, herr]
  · intro calls2 hok2
    simp [confirm, hv, hr, hl, hi, hw, hc, hns, hok2, setAdd]

/-- C10 witness: with every remote attempt rejected with HTTP 429, the
request at minute 18000 reports `ServiceBusy` and leaves the state untouched;
the same request with a succeeding append then confirms. -/
theorem confirm_append_failure_witness :
    (withRetry (fun _ => (.error ⟨some 429, none⟩ : Except RemoteErr Unit)) 3 300 0).result =
      .error ⟨some 429, none⟩ ∧
    confirm ⟨true, [([49, 49, 49, 49, 49, 49, 49, 49, 49, 49, 49], ⟨[83], [78], [65, 49]⟩)],
        some ⟨[], ⟨0, 0, 0, 0⟩⟩, none, [], []⟩ 18000
      [49, 49, 49, 49, 49, 49, 49, 49, 49, 49, 49]
      (fun _ => .error ⟨some 429, none⟩) [68] [72] =
      ⟨.serviceBusy,
        ⟨true, [([49, 49, 49, 49, 49, 49, 49, 49, 49, 49, 49], ⟨[83], [78], [65, 49]⟩)],
          some ⟨[], ⟨0, 0, 0, 0⟩⟩, none, [], []⟩, []⟩ ∧
    ∀ calls2 : Nat → Except RemoteErr Unit,
      (withRetry calls2 3 300 0).result = .ok () →
      confirm ⟨true, [([49, 49, 49, 49, 49, 49, 49, 49, 49, 49, 49], ⟨[83], [78], [65, 49]⟩)],
          some ⟨[], ⟨0, 0, 0, 0⟩⟩, none, [], []⟩ 18000
        [49, 49, 49, 49, 49, 49, 49, 49, 49, 49, 49] calls2 [68] [72] =
        ⟨.success [65, 49] [78] .Dia1 [68] [72],
          (⟨true, [([49, 49, 49, 49, 49, 49, 49, 49, 49, 49, 49], ⟨[83], [78], [65, 49]⟩)],
            some ⟨[], ⟨0, 0, 0, 0⟩⟩, none, [], []⟩ : ServerState).withSet .Dia1
            ([65, 49] :: ([] : List CS)),
          [⟨[65, 49], [78], [68], [72]⟩]⟩ := by
  have herr : (withRetry (fun _ => (.error ⟨some 429, none⟩ : Except RemoteErr Unit)) 3 300 0).result =
      .error ⟨some 429, none⟩ := by
    simp [withRetry, isTransient]
  have h := confirm_append_failure
    ⟨true, [([49, 49, 49, 49, 49, 49, 49, 49, 49, 49, 49], ⟨[83], [78], [65, 49]⟩)],
      some ⟨[], ⟨0, 0, 0, 0⟩⟩, none, [], []⟩ 18000
    [49, 49, 49, 49, 49, 49, 49, 49, 49, 49, 49] ⟨[83], [78], [65, 49]⟩
    (fun _ => .error ⟨some 429, none⟩) [68] [72] .Dia1
    ⟨[], ⟨0, 0, 0, 0⟩⟩ ⟨some 429, none⟩
    (by decide) (by decide) (by decide) (by decide) (by decide) (by decide) (by decide) herr
  refine ⟨herr, ?_, h.2⟩
  rw [h.1]
  decide

/-- Helper: replacing the binding of an existing key is seen by a lookup of
that key. -/
theorem tlookup_map_replace (m : List (CS × Entry)) (k : CS) (v w : Entry)
    (h : tlookup m k = some w) :
    tlookup (m.map (fun p => if p.1 = k then (k, v) else p)) k = some v := by
  induction m with
  | nil => simp [tlookup] at h
  | cons p rest ih =>
    by_cases hp : p.1 = k
    · simp [tlookup, hp]
    · have hkp : ¬ k = p.1 := fun hkp => hp hkp.symm
      rw [tlookup, if_neg hkp] at h
      simp only [List.map_cons, if_neg hp]
      rw [tlookup, if_neg hkp]
      exact ih h

/-- Helper: replacing the binding of one key leaves other lookups unchanged. -/
theorem tlookup_map_replace_ne (m : List (CS × Entry)) (k k' : CS) (v : Entry)
    (h : k' ≠ k) :
    tlookup (m.map (fun p => if p.1 = k then (k, v) else p)) k' = tlookup m k' := by
  induction m with
  | nil => rfl
  | cons p rest ih =>
    by_cases hp : p.1 = k
    · simp only [List.map_cons, if_pos hp, tlookup]
      rw [if_neg h, if_neg (hp ▸ h)]
      exact ih
    · simp only [List.map_cons, if_neg hp, tlookup]
      by_cases hk' : k' = p.1 <;> simp [hk', ih]

/-- Helper: appending a fresh binding is seen by a lookup of its key. -/
theorem tlookup_append_single (m : List (CS × Entry)) (k : CS) (v : Entry)
    (h : tlookup m k = none) :
    tlookup (m ++ [(k, v)]) k = some v := by
  induction m with
  | nil => simp [tlookup]
  | cons p rest ih =>
    rw [tlookup] at h
    by_cases hp : k = p.1
    · rw [if_pos hp] at h; exact absurd h (by simp)
    · rw [if_neg hp] at h
      rw [List.cons_append, tlookup, if_neg hp]
      exact ih h

/-- Helper: appending a binding for one key leaves other lookups unchanged. -/
theorem tlookup_append_single_ne (m : List (CS × Entry)) (k k' : CS) (v : Entry)
    (h : k' ≠ k) :
    tlookup (m ++ [(k, v)]) k' = tlookup m k' := by
  induction m with
  | nil => simp [tlookup, h]
  | cons p rest ih =>
    rw [List.cons_append, tlookup, tlookup]
    by_cases hp : k' = p.1 <;> simp [hp, ih]

/-- Helper: `Map.set` followed by `Map.get` of the same key. -/
theorem tlookup_msetEntry_self (m : List (CS × Entry)) (k : CS) (v : Entry) :
    tlookup (msetEntry m k v) k = some v := by
  unfold msetEntry
  cases h : tlookup m k with
  | some w => exact tlookup_map_replace m k v w h
  | none => exact tlookup_append_single m k v h

/-- Helper: `Map.set` of one key followed by `Map.get` of another. -/
theorem tlookup_msetEntry_ne (m : List (CS × Entry)) (k k' : CS) (v : Entry)
    (h : k' ≠ k) :
    tlookup (msetEntry m k v) k' = tlookup m k' := by
  unfold msetEntry
  cases tlookup m k with
  | some w => exact tlookup_map_replace_ne m k k' v h
  | none => exact tlookup_append_single_ne m k k' v h

/-- Helper: `find?` over an append searches the left list first. -/
theorem find?_append_my (p : RawRow → Bool) (l1 l2 : List RawRow) :
    (l1 ++ l2).find? p =
      match l1.find? p with
      | some x => some x
      | none => l2.find? p := by
  induction l1 with
  | nil => simp
  | cons a l ih =>
    by_cases hp : p a <;> simp [List.find?_cons, hp, ih]

/-- Helper: a source row whose stripped CPF is another key does not change
the expected entry. -/
theorem firstWinsUpgrade_snoc_ne (rows : List RawRow) (r : RawRow) (k : CS)
    (h : digitsOf r.cpf ≠ k) :
    firstWinsUpgrade (rows ++ [r]) k = firstWinsUpgrade rows k := by
  unfold firstWinsUpgrade
  rw [List.filter_append]
  simp [h]

/-- Helper: appending one more source row for the key `k` updates the
expected entry exactly like the row-loop body: a first occurrence is kept,
and an entry lacking a registration number is overwritten by a row that has
one. -/
theorem firstWinsUpgrade_snoc_eq (rows : List RawRow) (r : RawRow) (k : CS)
    (hc : digitsOf r.cpf = k) :
    firstWinsUpgrade (rows ++ [r]) k =
      match firstWinsUpgrade rows k with
      | none => some (entryOf r)
      | some cur =>
        if cur.inscricao = [] ∧ r.inscricao ≠ [] then some (entryOf r) else some cur := by
  unfold firstWinsUpgrade
  rw [List.filter_append]
  have hr1 : rows.filter (fun x => decide (digitsOf x.cpf = k)) ++
      [r].filter (fun x => decide (digitsOf x.cpf = k)) =
      rows.filter (fun x => decide (digitsOf x.cpf = k)) ++ [r] := by
    simp [hc]
  rw [hr1]
  cases hF : rows.filter (fun x => decide (digitsOf x.cpf = k)) with
  | nil =>
    by_cases hri : r.inscricao = [] <;> simp [List.find?_cons, hri]
  | cons r0 rest =>
    by_cases hr0 : r0.inscricao = []
    · rw [List.cons_append]
      simp only [hr0, ne_eq, not_true_eq_false, if_false, decide_not]
      rw [show r0 :: (rest ++ [r]) = (r0 :: rest) ++ [r] from rfl]
      rw [find?_append_my]
      cases hf : (r0 :: rest).find? (fun x => !decide (x.inscricao = [])) with
      | some r1 =>
        have hp1 := List.find?_some hf
        simp at hp1
        simp [entryOf, hp1]
      | none =>
        by_cases hri : r.inscricao = [] <;> simp [List.find?_cons, hri, hr0, entryOf]
    · rw [List.cons_append]
      simp [hr0, entryOf]

/-- Helper: the roster index built by the row loop agrees, key by key, with
the first-wins-with-upgrade merge rule. -/
theorem buildIndex_eq_firstWins (rows : List RawRow) (k : CS) (hk : k ≠ []) :
    tlookup (buildIndex rows) k = firstWinsUpgrade rows k := by
  induction rows using List.reverseRecOn with
  | nil => rfl
  | append_singleton rows r ih =>
    have hstep : buildIndex (rows ++ [r]) = insertRow (buildIndex rows) r := by
      unfold buildIndex
      rw [List.foldl_append, List.foldl_cons, List.foldl_nil]
    rw [hstep]
    by_cases hc : digitsOf r.cpf = []
    · have hne : digitsOf r.cpf ≠ k := fun hkk => hk (hkk.symm.trans hc)
      rw [firstWinsUpgrade_snoc_ne rows r k hne, ← ih]
      simp [insertRow, hc]
    · by_cases hck : digitsOf r.cpf = k
      · rw [firstWinsUpgrade_snoc_eq rows r k hck, ← ih]
        simp only [insertRow, hck, if_neg hk]
        cases hm : tlookup (buildIndex rows) k with
        | none => simp [tlookup_msetEntry_self]
        | some cur =>
          by_cases hcur : cur.inscricao = [] ∧ r.inscricao ≠ []
          · simp [hcur, tlookup_msetEntry_self]
          · simp [hcur, hm]
      · have hkne : k ≠ digitsOf r.cpf := fun h' => hck h'.symm
        rw [firstWinsUpgrade_snoc_ne rows r k hck, ← ih]
        simp only [insertRow, if_neg hc]
        cases hm : tlookup (buildIndex rows) (digitsOf r.cpf) with
        | none => simp [tlookup_msetEntry_ne _ _ _ _ hkne]
        | some cur =>
          by_cases hcur : cur.inscricao = [] ∧ r.inscricao ≠ []
          · simp [hcur, tlookup_msetEntry_ne _ _ _ _ hkne]
          · simp [hcur]

/-- Helper: if any source row for a key carries a registration number, the
expected entry has one. -/
theorem firstWinsUpgrade_keeps_inscricao (rows : List RawRow) (k : CS)
    (hex : ∃ r ∈ rows, digitsOf r.cpf = k ∧ r.inscricao ≠ []) :
    ∃ en, firstWinsUpgrade rows k = some en ∧ en.inscricao ≠ [] := by
  obtain ⟨r, hr, hrk, hri⟩ := hex
  have hmem : r ∈ rows.filter (fun x => decide (digitsOf x.cpf = k)) :=
    List.mem_filter.mpr ⟨hr, by simp [hrk]⟩
  unfold firstWinsUpgrade
  cases hF : rows.filter (fun x => decide (digitsOf x.cpf = k)) with
  | nil => rw [hF] at hmem; cases hmem
  | cons r0 rest =>
    rw [hF] at hmem
    by_cases hr0 : r0.inscricao = []
    · cases hf : (r0 :: rest).find? (fun x => decide (x.inscricao ≠ [])) with
      | none =>
        have hall := List.find?_eq_none.mp hf r hmem
        simp [hri] at hall
      | some r1 =>
        have hp1 := List.find?_some hf
        simp only [decide_eq_true_eq] at hp1
        simp only [decide_not] at hf
        simp [List.find?_cons, hr0] at hf
        exact ⟨entryOf r1, by simp [hr0, hf], by simp [entryOf, hp1]⟩
    · exact ⟨entryOf r0, by simp [hr0], by simp [entryOf, hr0]⟩

/-- C4: for every sequence of source rows, the final roster index entry of a
(non-empty) identity number follows the merge rule: the first-encountered
record wins, except that an entry with an empty registration number is
replaced by the first later row for the same number that has one; once
non-empty it is never replaced again, so the final entry carries a non-empty
registration number whenever any source row for that identity number does. -/
theorem buildIndex_merge_rule (rows : List RawRow) (k : CS) (hk : k ≠ []) :
    tlookup (buildIndex rows) k = firstWinsUpgrade rows k ∧
    ((∃ r ∈ rows, digitsOf r.cpf = k ∧ r.inscricao ≠ []) →
      ∃ en, tlookup (buildIndex rows) k = some en ∧ en.inscricao ≠ []) := by
  refine ⟨buildIndex_eq_firstWins rows k hk, fun hex => ?_⟩
  rw [buildIndex_eq_firstWins rows k hk]
  exact firstWinsUpgrade_keeps_inscricao rows k hex

/-- C4 witness: two source rows for identity number 1 (written once with
punctuation), the first lacking a registration number and the second carrying
"X": the built index keeps the second record and its registration number. -/
theorem buildIndex_merge_rule_witness :
    ([49] : CS) ≠ [] ∧
    (tlookup (buildIndex [⟨[65], [49], [78], []⟩, ⟨[66], [49, 46], [77], [88]⟩]) [49] =
        firstWinsUpgrade [⟨[65], [49], [78], []⟩, ⟨[66], [49, 46], [77], [88]⟩] [49] ∧
      ((∃ r ∈ [(⟨[65], [49], [78], []⟩ : RawRow), ⟨[66], [49, 46], [77], [88]⟩],
          digitsOf r.cpf = [49] ∧ r.inscricao ≠ []) →
        ∃ en, tlookup (buildIndex [⟨[65], [49], [78], []⟩, ⟨[66], [49, 46], [77], [88]⟩]) [49] =
            some en ∧ en.inscricao ≠ [])) :=
  ⟨by decide, buildIndex_merge_rule _ [49] (by decide)⟩

/-- C3 counterexample: refreshing a ready state whose Day-1 duplicate set is
the singleton "O", the state observable at trace position 3 (while the refresh
awaits the Day-2 header row) already carries the rebuilt Day-1 column mapping
and the new duplicate set holding "N1" while still exposing the old roster
index: a mix of old
and new structures, equal neither to the pre-refresh state nor to the final
state, refuting whole-structure replacement and unchanged-on-failure. -/
theorem refresh_mix_cex :
    (refreshTrace
        ⟨true, [([49], ⟨[65], [78], [88]⟩)], some ⟨[], ⟨0, 0, 0, 0⟩⟩,
          some ⟨[], ⟨0, 0, 0, 0⟩⟩, [[79]], []⟩
        (some ⟨[⟨[66], [50], [77], [89]⟩],
          some ⟨[[73, 110, 115, 99, 114, 105, 231, 227, 111], [78, 111, 109, 101],
            [68, 97, 116, 97], [72, 111, 114, 225, 114, 105, 111]], [[[78, 49]]]⟩,
          some ⟨[[73, 110, 115, 99, 114, 105, 231, 227, 111], [78, 111, 109, 101],
            [68, 97, 116, 97], [72, 111, 114, 225, 114, 105, 111]], []⟩⟩)).get? 3 =
      some ⟨true, [([49], ⟨[65], [78], [88]⟩)],
        some ⟨[[73, 110, 115, 99, 114, 105, 231, 227, 111], [78, 111, 109, 101],
            [68, 97, 116, 97], [72, 111, 114, 225, 114, 105, 111]], ⟨0, 1, 2, 3⟩⟩,
        some ⟨[], ⟨0, 0, 0, 0⟩⟩, [[78, 49]], []⟩ ∧
    (⟨true, [([49], ⟨[65], [78], [88]⟩)],
        some ⟨[[73, 110, 115, 99, 114, 105, 231, 227, 111], [78, 111, 109, 101],
            [68, 97, 116, 97], [72, 111, 114, 225, 114, 105, 111]], ⟨0, 1, 2, 3⟩⟩,
        some ⟨[], ⟨0, 0, 0, 0⟩⟩, [[78, 49]], []⟩ : ServerState) ≠
      ⟨true, [([49], ⟨[65], [78], [88]⟩)], some ⟨[], ⟨0, 0, 0, 0⟩⟩,
          some ⟨[], ⟨0, 0, 0, 0⟩⟩, [[79]], []⟩ ∧
    (refreshTrace
        ⟨true, [([49], ⟨[65], [78], [88]⟩)], some ⟨[], ⟨0, 0, 0, 0⟩⟩,
          some ⟨[], ⟨0, 0, 0, 0⟩⟩, [[79]], []⟩
        (some ⟨[⟨[66], [50], [77], [89]⟩],
          some ⟨[[73, 110, 115, 99, 114, 105, 231, 227, 111], [78, 111, 109, 101],
            [68, 97, 116, 97], [72, 111, 114, 225, 114, 105, 111]], [[[78, 49]]]⟩,
          some ⟨[[73, 110, 115, 99, 114, 105, 231, 227, 111], [78, 111, 109, 101],
            [68, 97, 116, 97], [72, 111, 114, 225, 114, 105, 111]], []⟩⟩)).getLast? =
      some ⟨true, [([50], ⟨[66], [77], [89]⟩)],
        some ⟨[[73, 110, 115, 99, 114, 105, 231, 227, 111], [78, 111, 109, 101],
            [68, 97, 116, 97], [72, 111, 114, 225, 114, 105, 111]], ⟨0, 1, 2, 3⟩⟩,
        some ⟨[[73, 110, 115, 99, 114, 105, 231, 227, 111], [78, 111, 109, 101],
            [68, 97, 116, 97], [72, 111, 114, 225, 114, 105, 111]], ⟨0, 1, 2, 3⟩⟩, [[78, 49]], []⟩ ∧
    (⟨true, [([49], ⟨[65], [78], [88]⟩)],
        some ⟨[[73, 110, 115, 99, 114, 105, 231, 227, 111], [78, 111, 109, 101],
            [68, 97, 116, 97], [72, 111, 114, 225, 114, 105, 111]], ⟨0, 1, 2, 3⟩⟩,
        some ⟨[], ⟨0, 0, 0, 0⟩⟩, [[78, 49]], []⟩ : ServerState) ≠
      ⟨true, [([50], ⟨[66], [77], [89]⟩)],
        some ⟨[[73, 110, 115, 99, 114, 105, 231, 227, 111], [78, 111, 109, 101],
            [68, 97, 116, 97], [72, 111, 114, 225, 114, 105, 111]], ⟨0, 1, 2, 3⟩⟩,
        some ⟨[[73, 110, 115, 99, 114, 105, 231, 227, 111], [78, 111, 109, 101],
            [68, 97, 116, 97], [72, 111, 114, 225, 114, 105, 111]], ⟨0, 1, 2, 3⟩⟩, [[78, 49]], []⟩ := by
  refine ⟨by decide, by decide, by decide, by decide⟩

/-- Helper: one day-table iteration never touches the roster index or the
ready flag - neither in its observable intermediate states nor in its final
state. -/
theorem dayStep_obs (st : ServerState) (d : Day) (ds : Option DaySheet) :
    (∀ s ∈ (dayStep st d ds).1, s.indexByCPF = st.indexByCPF ∧ s.ready = st.ready) ∧
    (dayStep st d ds).2.indexByCPF = st.indexByCPF ∧
    (dayStep st d ds).2.ready = st.ready := by
  cases ds with
  | none => simp [dayStep]
  | some dsh =>
    cases hrc : resolveChk dsh.headers with
    | none => simp [dayStep, hrc]
    | some cfg =>
      simp only [dayStep, hrc]
      refine ⟨?_, ?_, ?_⟩
      · intro s hs
        simp only [List.mem_cons, List.not_mem_nil, or_false] at hs
        rcases hs with rfl | rfl
        · exact ⟨rfl, rfl⟩
        · exact ⟨withChk_index st d cfg, withChk_ready st d cfg⟩
      · rw [withSet_index, withChk_index]
      · rw [withSet_ready, withChk_ready]

/-- C3 (amended): only the roster index (with the ready flag) is swapped in
wholesale: every state a concurrent request can observe during a refresh
still carries the pre-refresh roster index and ready flag, an
authentication/metadata failure leaves the state entirely unchanged, and the
trace's final state carries the freshly built index with `ready = true`; the
per-day column mappings and duplicate sets, however, are mutated in place at
the intermediate points the counterexample exhibits, so those intermediate
states may mix new day-table caches with the old index. -/
theorem refresh_swap_behaviour (st : ServerState) (rd : RemoteData) :
    refreshTrace st none = [st] ∧
    (∀ s ∈ (refreshTrace st (some rd)).dropLast,
      s.indexByCPF = st.indexByCPF ∧ s.ready = st.ready) ∧
    ∃ fin, (refreshTrace st (some rd)).getLast? = some fin ∧
      fin.indexByCPF = buildIndex rd.profileRows ∧ fin.ready = true := by
  have hshape : refreshTrace st (some rd) =
      (st :: ((dayStep st .Dia1 rd.dia1).1 ++
        (dayStep (dayStep st .Dia1 rd.dia1).2 .Dia2 rd.dia2).1)) ++
      [{ (dayStep (dayStep st .Dia1 rd.dia1).2 .Dia2 rd.dia2).2 with
          indexByCPF := buildIndex rd.profileRows, ready := true }] := by
    simp [refreshTrace]
  refine ⟨rfl, ?_, ?_⟩
  · intro s hs
    rw [hshape, List.dropLast_concat] at hs
    have h1 := dayStep_obs st .Dia1 rd.dia1
    have h2 := dayStep_obs (dayStep st .Dia1 rd.dia1).2 .Dia2 rd.dia2
    rcases List.mem_cons.mp hs with rfl | hs2
    · exact ⟨rfl, rfl⟩
    rcases List.mem_append.mp hs2 with hA | hB
    · exact h1.1 s hA
    · have hmem := h2.1 s hB
      exact ⟨hmem.1.trans h1.2.1, hmem.2.trans h1.2.2⟩
  · exact ⟨{ (dayStep (dayStep st .Dia1 rd.dia1).2 .Dia2 rd.dia2).2 with
      indexByCPF := buildIndex rd.profileRows, ready := true },
      by rw [hshape, List.getLast?_concat], rfl, rfl⟩

/-- Helper: a successful association lookup comes from a list member. -/
theorem tlookup_mem {κ α : Type} [DecidableEq κ] (l : List (κ × α)) (k : κ) (v : α)
    (h : tlookup l k = some v) : (k, v) ∈ l := by
  induction l with
  | nil => simp [tlookup] at h
  | cons p rest ih =>
    rw [tlookup] at h
    by_cases hp : k = p.1
    · rw [if_pos hp] at h
      injection h with h
      have hkv : (k, v) = p := by
        rw [hp, ← h]
      rw [hkv]
      exact List.mem_cons_self _ _
    · rw [if_neg hp] at h
      exact List.mem_cons_of_mem _ (ih h)

/-- Helper: code points below 0xC0 have no NFD decomposition entry. -/
theorem tlookup_nfd_low (c : Nat) (h : c < 0xC0) : tlookup nfdTable c = none := by
  have hall : (List.range 0xC0).all (fun c => (tlookup nfdTable c).isNone) = true := by decide
  have := List.all_eq_true.mp hall c (List.mem_range.mpr h)
  simpa [Option.isNone_iff_eq_none] using this

/-- Helper: code points below 0xC0 have no accented lower-casing entry. -/
theorem tlookup_lower_low (c : Nat) (h : c < 0xC0) : tlookup lowerTable c = none := by
  have hall : (List.range 0xC0).all (fun c => (tlookup lowerTable c).isNone) = true := by decide
  have := List.all_eq_true.mp hall c (List.mem_range.mpr h)
  simpa [Option.isNone_iff_eq_none] using this

/-- Helper: every key of the lower-casing table also decomposes, so a
non-decomposing character has no lower-casing entry either. -/
theorem lower_none_of_nfd_none (c : Nat) (h : tlookup nfdTable c = none) :
    tlookup lowerTable c = none := by
  cases hl : tlookup lowerTable c with
  | none => rfl
  | some v =>
    exfalso
    have hmem := tlookup_mem lowerTable c v hl
    have hall : lowerTable.all (fun q => (tlookup nfdTable q.1).isSome) = true := by decide
    have := List.all_eq_true.mp hall (c, v) hmem
    rw [h] at this
    simp at this

/-- Helper: every character a decomposition emits is either a combining mark
or does not itself decompose (NFD is idempotent on the modelled alphabet). -/
theorem nfdChar_elem (c : Nat) : ∀ d ∈ nfdChar c, Combining d ∨ tlookup nfdTable d = none := by
  unfold nfdChar
  cases h : tlookup nfdTable c with
  | none =>
    intro d hd
    simp at hd
    exact hd ▸ Or.inr h
  | some v =>
    intro d hd
    have hmem := tlookup_mem nfdTable c v h
    have hall : nfdTable.all
        (fun q => q.2.all (fun d => decide (Combining d) || (tlookup nfdTable d).isNone)) = true := by
      decide
    have hq := List.all_eq_true.mp hall (c, v) hmem
    have hd2 := List.all_eq_true.mp hq d hd
    rcases Bool.or_eq_true_iff.mp hd2 with hc | hn
    · exact Or.inl (of_decide_eq_true hc)
    · exact Or.inr (Option.isNone_iff_eq_none.mp hn)

/-- Helper: printable ASCII is not whitespace. -/
theorem notWs_mid (x : Nat) (h1 : 48 ≤ x) (h2 : x ≤ 128) : ¬ IsWs x := by
  intro hw
  unfold IsWs at hw
  rcases hw with h | h | h | h | h | h | h | h | h | h | h <;> omega

/-- Helper: low code points are not combining marks. -/
theorem notCombining_low (x : Nat) (h2 : x ≤ 250) : ¬ Combining x := by
  intro hc
  unfold Combining at hc
  omega

/-- Helper: on non-decomposing characters, lower-casing is idempotent and
preserves non-decomposition, whitespace-ness and combining-ness. -/
theorem toLowerChar_good (c : Nat) (h : tlookup nfdTable c = none) :
    tlookup nfdTable (toLowerChar c) = none ∧
    toLowerChar (toLowerChar c) = toLowerChar c ∧
    (IsWs (toLowerChar c) ↔ IsWs c) ∧
    (Combining (toLowerChar c) ↔ Combining c) := by
  have hl := lower_none_of_nfd_none c h
  by_cases hup : 65 ≤ c ∧ c ≤ 90
  · have hlc : toLowerChar c = c + 32 := by
      unfold toLowerChar
      rw [if_pos hup]
    have h1 : tlookup nfdTable (c + 32) = none := tlookup_nfd_low _ (by omega)
    have h2 : tlookup lowerTable (c + 32) = none := tlookup_lower_low _ (by omega)
    have hfix : toLowerChar (c + 32) = c + 32 := by
      unfold toLowerChar
      rw [if_neg (by omega), h2]
    rw [hlc]
    refine ⟨h1, hfix, ?_, ?_⟩
    · exact iff_of_false (notWs_mid _ (by omega) (by omega)) (notWs_mid _ (by omega) (by omega))
    · exact iff_of_false (notCombining_low _ (by omega)) (notCombining_low _ (by omega))
  · have hlc : toLowerChar c = c := by
      unfold toLowerChar
      rw [if_neg hup, hl]
    rw [hlc, hlc]
    exact ⟨h, rfl, Iff.rfl, Iff.rfl⟩

/-- Helper: every character of an NFD-normalised string is a combining mark
or does not decompose. -/
theorem nfd_elem (s : CS) : ∀ d ∈ nfd s, Combining d ∨ tlookup nfdTable d = none := by
  intro d hd
  unfold nfd at hd
  rw [List.mem_flatten] at hd
  obtain ⟨l, hl, hdl⟩ := hd
  rw [List.mem_map] at hl
  obtain ⟨c, -, rfl⟩ := hl
  exact nfdChar_elem c d hdl

/-- Helper: after decomposition and mark stripping, every character is a
non-decomposing non-mark. -/
theorem strip_nfd_elem (s : CS) :
    ∀ d ∈ stripMarks (nfd s), tlookup nfdTable d = none ∧ ¬ Combining d := by
  intro d hd
  obtain ⟨hin, hnc⟩ := List.mem_filter.mp hd
  have hnc2 : ¬ Combining d := of_decide_eq_true hnc
  rcases nfd_elem s d hin with hc | hn
  · exact absurd hc hnc2
  · exact ⟨hn, hnc2⟩

/-- Helper: unfolding `collapseGo` on a whitespace head inside a run. -/
theorem collapseGo_cons_ws_true (a : Nat) (rest : CS) (h : IsWs a) :
    collapseGo (a :: rest) true = collapseGo rest true := by
  conv_lhs => unfold collapseGo
  rw [if_pos h, if_pos rfl]

/-- Helper: unfolding `collapseGo` on a whitespace head that starts a run. -/
theorem collapseGo_cons_ws_false (a : Nat) (rest : CS) (h : IsWs a) :
    collapseGo (a :: rest) false = 32 :: collapseGo rest true := by
  conv_lhs => unfold collapseGo
  rw [if_pos h, if_neg (by decide)]

/-- Helper: unfolding `collapseGo` on a non-whitespace head. -/
theorem collapseGo_cons_not (a : Nat) (rest : CS) (b : Bool) (h : ¬ IsWs a) :
    collapseGo (a :: rest) b = a :: collapseGo rest false := by
  conv_lhs => unfold collapseGo
  rw [if_neg h]

/-- Helper: whitespace collapsing only emits spaces and original characters. -/
theorem collapseGo_elem (s : CS) : ∀ b, ∀ c ∈ collapseGo s b, c = 32 ∨ c ∈ s := by
  induction s with
  | nil =>
    intro b c hc
    rw [show collapseGo [] b = [] from rfl] at hc
    cases hc
  | cons a rest ih =>
    intro b c hc
    by_cases hws : IsWs a
    · cases b with
      | true =>
        rw [collapseGo_cons_ws_true a rest hws] at hc
        rcases ih true c hc with h | h
        · exact Or.inl h
        · exact Or.inr (List.mem_cons_of_mem _ h)
      | false =>
        rw [collapseGo_cons_ws_false a rest hws] at hc
        rcases List.mem_cons.mp hc with rfl | hc2
        · exact Or.inl rfl
        · rcases ih true c hc2 with h | h
          · exact Or.inl h
          · exact Or.inr (List.mem_cons_of_mem _ h)
    · rw [collapseGo_cons_not a rest b hws] at hc
      rcases List.mem_cons.mp hc with rfl | hc2
      · exact Or.inr (List.mem_cons_self _ _)
      · rcases ih false c hc2 with h | h
        · exact Or.inl h
        · exact Or.inr (List.mem_cons_of_mem _ h)

/-- Helper: inside a whitespace run the collapser emits nothing until the
next non-whitespace character. -/
theorem collapseGo_headNotWs (s : CS) : headNotWs (collapseGo s true) := by
  induction s with
  | nil => trivial
  | cons a rest ih =>
    by_cases hws : IsWs a
    · rw [collapseGo_cons_ws_true a rest hws]
      exact ih
    · rw [collapseGo_cons_not a rest true hws]
      exact hws

/-- Helper: after collapsing, every whitespace character is a plain space. -/
theorem collapseGo_allWs (s : CS) : ∀ b, allWsSpace (collapseGo s b) := by
  induction s with
  | nil =>
    intro b c hc _
    rw [show collapseGo [] b = [] from rfl] at hc
    cases hc
  | cons a rest ih =>
    intro b c hc hcw
    by_cases hws : IsWs a
    · cases b with
      | true =>
        rw [collapseGo_cons_ws_true a rest hws] at hc
        exact ih true c hc hcw
      | false =>
        rw [collapseGo_cons_ws_false a rest hws] at hc
        rcases List.mem_cons.mp hc with rfl | hc2
        · rfl
        · exact ih true c hc2 hcw
    · rw [collapseGo_cons_not a rest b hws] at hc
      rcases List.mem_cons.mp hc with rfl | hc2
      · exact absurd hcw hws
      · exact ih false c hc2 hcw

/-- Helper: prepending anything to a string that starts non-whitespace keeps
whitespace non-adjacent. -/
theorem noAdj_cons_headNot (c : Nat) (L : CS) (hL : noAdjWs L) (hh : headNotWs L) :
    noAdjWs (c :: L) := by
  cases L with
  | nil => trivial
  | cons d rest => exact ⟨fun hp => hh hp.2, hL⟩

/-- Helper: prepending a non-whitespace character keeps whitespace
non-adjacent. -/
theorem noAdj_cons_notWs (c : Nat) (L : CS) (hL : noAdjWs L) (hc : ¬ IsWs c) :
    noAdjWs (c :: L) := by
  cases L with
  | nil => trivial
  | cons d rest => exact ⟨fun hp => hc hp.1, hL⟩

/-- Helper: collapsing leaves no two adjacent whitespace characters. -/
theorem collapseGo_noAdj (s : CS) : ∀ b, noAdjWs (collapseGo s b) := by
  induction s with
  | nil => intro b; rw [show collapseGo [] b = [] from rfl]; trivial
  | cons a rest ih =>
    intro b
    by_cases hws : IsWs a
    · cases b with
      | true =>
        rw [collapseGo_cons_ws_true a rest hws]
        exact ih true
      | false =>
        rw [collapseGo_cons_ws_false a rest hws]
        exact noAdj_cons_headNot 32 _ (ih true) (collapseGo_headNotWs rest)
    · rw [collapseGo_cons_not a rest b hws]
      exact noAdj_cons_notWs a _ (ih false) hws

/-- Helper: non-adjacency is inherited by the tail. -/
theorem noAdj_tail (a : Nat) (L : CS) (h : noAdjWs (a :: L)) : noAdjWs L := by
  cases L with
  | nil => trivial
  | cons b rest => exact h.2

/-- Helper: unfolding `trimRight` when the tail trims to nothing. -/
theorem trimRight_cons_nil (c : Nat) (rest : CS) (h : trimRight rest = []) :
    trimRight (c :: rest) = if IsWs c then [] else [c] := by
  conv_lhs => unfold trimRight
  rw [h]

/-- Helper: unfolding `trimRight` when the tail trims to a non-empty list. -/
theorem trimRight_cons_cons (c : Nat) (rest : CS) (r : Nat) (rs : CS)
    (h : trimRight rest = r :: rs) :
    trimRight (c :: rest) = c :: r :: rs := by
  conv_lhs => unfold trimRight
  rw [h]

/-- Helper: right-trimming keeps the head when the result is non-empty. -/
theorem trimRight_head (d : Nat) (s : CS) :
    trimRight (d :: s) = [] ∨ ∃ rs, trimRight (d :: s) = d :: rs := by
  cases htr : trimRight s with
  | nil =>
    rw [trimRight_cons_nil d s htr]
    by_cases hws : IsWs d
    · rw [if_pos hws]; exact Or.inl rfl
    · rw [if_neg hws]; exact Or.inr ⟨[], rfl⟩
  | cons r rs =>
    rw [trimRight_cons_cons d s r rs htr]
    exact Or.inr ⟨r :: rs, rfl⟩

/-- Helper: right-trimming only keeps original characters. -/
theorem trimRight_elem (s : CS) : ∀ c ∈ trimRight s, c ∈ s := by
  induction s with
  | nil => intro c hc; cases hc
  | cons a rest ih =>
    intro c hc
    cases htr : trimRight rest with
    | nil =>
      rw [trimRight_cons_nil a rest htr] at hc
      by_cases hws : IsWs a
      · rw [if_pos hws] at hc; cases hc
      · rw [if_neg hws] at hc
        rcases List.mem_cons.mp hc with rfl | hc2
        · exact List.mem_cons_self _ _
        · cases hc2
    | cons r rs =>
      rw [trimRight_cons_cons a rest r rs htr] at hc
      rcases List.mem_cons.mp hc with rfl | hc2
      · exact List.mem_cons_self _ _
      · exact List.mem_cons_of_mem _ (ih c (htr ▸ hc2))

/-- Helper: right-trimming preserves whitespace non-adjacency. -/
theorem trimRight_noAdj (s : CS) (h : noAdjWs s) : noAdjWs (trimRight s) := by
  induction s with
  | nil => trivial
  | cons a rest ih =>
    cases htr : trimRight rest with
    | nil =>
      rw [trimRight_cons_nil a rest htr]
      by_cases hws : IsWs a
      · rw [if_pos hws]; trivial
      · rw [if_neg hws]; trivial
    | cons r rs =>
      rw [trimRight_cons_cons a rest r rs htr]
      cases rest with
      | nil => rw [show trimRight ([] : CS) = [] from rfl] at htr; cases htr
      | cons d rest2 =>
        have hd : r = d := by
          rcases trimRight_head d rest2 with h0 | ⟨rs2, h2⟩
          · rw [h0] at htr; cases htr
          · rw [h2] at htr
            injection htr with h3 _
            exact h3.symm
        refine ⟨fun hp => h.1 ⟨hp.1, hd ▸ hp.2⟩, ?_⟩
        have := ih (noAdj_tail _ _ h)
        rw [htr] at this
        exact this

/-- Helper: after right-trimming the last character is not whitespace. -/
theorem trimRight_lastNotWs (s : CS) : lastNotWs (trimRight s) := by
  induction s with
  | nil => trivial
  | cons a rest ih =>
    cases htr : trimRight rest with
    | nil =>
      rw [trimRight_cons_nil a rest htr]
      by_cases hws : IsWs a
      · rw [if_pos hws]; trivial
      · rw [if_neg hws]; exact hws
    | cons r rs =>
      rw [trimRight_cons_cons a rest r rs htr]
      show lastNotWs (r :: rs)
      rw [← htr]
      exact ih

/-- Helper: right-trimming preserves a non-whitespace head. -/
theorem trimRight_headNotWs (s : CS) (h : headNotWs s) : headNotWs (trimRight s) := by
  cases s with
  | nil => trivial
  | cons a rest =>
    cases htr : trimRight rest with
    | nil =>
      rw [trimRight_cons_nil a rest htr]
      by_cases hws : IsWs a
      · rw [if_pos hws]; trivial
      · rw [if_neg hws]; exact hws
    | cons r rs =>
      rw [trimRight_cons_cons a rest r rs htr]
      exact h

/-- Helper: right-trimming fixes strings that end non-whitespace. -/
theorem trimRight_eq_self (s : CS) (h : lastNotWs s) : trimRight s = s := by
  induction s with
  | nil => rfl
  | cons a rest ih =>
    cases rest with
    | nil =>
      rw [trimRight_cons_nil a [] rfl, if_neg h]
    | cons d rest2 =>
      have h2 : trimRight (d :: rest2) = d :: rest2 := ih h
      rw [trimRight_cons_cons a (d :: rest2) d rest2 h2]

/-- Helper: after dropping leading whitespace the head is not whitespace. -/
theorem dropWhileWs_headNotWs (s : CS) :
    headNotWs (s.dropWhile (fun c => decide (IsWs c))) := by
  induction s with
  | nil => trivial
  | cons a rest ih =>
    rw [List.dropWhile_cons]
    by_cases hws : IsWs a
    · rw [if_pos (by simp [hws])]
      exact ih
    · rw [if_neg (by simp [hws])]
      exact hws

/-- Helper: dropping leading whitespace preserves non-adjacency. -/
theorem dropWhileWs_noAdj (s : CS) (h : noAdjWs s) :
    noAdjWs (s.dropWhile (fun c => decide (IsWs c))) := by
  induction s with
  | nil => trivial
  | cons a rest ih =>
    rw [List.dropWhile_cons]
    by_cases hws : IsWs a
    · rw [if_pos (by simp [hws])]
      exact ih (noAdj_tail _ _ h)
    · rw [if_neg (by simp [hws])]
      exact h

/-- Helper: dropping leading whitespace fixes strings that start
non-whitespace. -/
theorem dropWhileWs_eq_self (s : CS) (h : headNotWs s) :
    s.dropWhile (fun c => decide (IsWs c)) = s := by
  cases s with
  | nil => rfl
  | cons a rest =>
    have ha : ¬ IsWs a := h
    rw [List.dropWhile_cons, if_neg (by simp [ha])]

/-- Helper: NFD normalisation fixes strings of non-decomposing characters. -/
theorem nfd_eq_self (s : CS) (h : ∀ c ∈ s, tlookup nfdTable c = none) : nfd s = s := by
  induction s with
  | nil => rfl
  | cons a rest ih =>
    have h1 : nfdChar a = [a] := by
      unfold nfdChar
      rw [h a (List.mem_cons_self _ _)]
      rfl
    show nfdChar a ++ nfd rest = a :: rest
    rw [h1, ih (fun c hc => h c (List.mem_cons_of_mem _ hc))]
    rfl

/-- Helper: mark stripping fixes strings without combining marks. -/
theorem stripMarks_eq_self (s : CS) (h : ∀ c ∈ s, ¬ Combining c) : stripMarks s = s :=
  List.filter_eq_self.mpr (fun a ha => by simp [h a ha])

/-- Helper: collapsing fixes strings whose whitespace is single plain
spaces. -/
theorem collapseGo_eq_self (s : CS) (ha : allWsSpace s) (hn : noAdjWs s) :
    collapseGo s false = s ∧ (headNotWs s → collapseGo s true = s) := by
  induction s with
  | nil => exact ⟨rfl, fun _ => rfl⟩
  | cons a rest ih =>
    have harest : allWsSpace rest := fun c hc => ha c (List.mem_cons_of_mem _ hc)
    have ihh := ih harest (noAdj_tail _ _ hn)
    by_cases hws : IsWs a
    · have hc32 : a = 32 := ha a (List.mem_cons_self _ _) hws
      have hhr : headNotWs rest := by
        cases rest with
        | nil => trivial
        | cons d r2 => exact fun hd => hn.1 ⟨hws, hd⟩
      constructor
      · rw [collapseGo_cons_ws_false a rest hws, ihh.2 hhr, hc32]
      · intro hh
        exact absurd hws hh
    · constructor
      · rw [collapseGo_cons_not a rest false hws, ihh.1]
      · intro _
        rw [collapseGo_cons_not a rest true hws, ihh.1]

/-- Helper: mapping a function that fixes every element fixes the list. -/
theorem map_id_of (f : Nat → Nat) (s : CS) (h : ∀ c ∈ s, f c = c) : s.map f = s := by
  induction s with
  | nil => rfl
  | cons a rest ih =>
    rw [List.map_cons, h a (List.mem_cons_self _ _),
      ih (fun c hc => h c (List.mem_cons_of_mem _ hc))]

/-- Helper: a whitespace-preserving character map keeps all whitespace as
plain spaces. -/
theorem map_pres_allWs (f : Nat → Nat) (s : CS)
    (hf : ∀ c ∈ s, IsWs (f c) ↔ IsWs c) (hf32 : f 32 = 32) (ha : allWsSpace s) :
    allWsSpace (s.map f) := by
  intro d hd hdws
  obtain ⟨c, hc, rfl⟩ := List.mem_map.mp hd
  have hcw : IsWs c := (hf c hc).mp hdws
  rw [ha c hc hcw, hf32]

/-- Helper: a whitespace-preserving character map preserves non-adjacency. -/
theorem map_pres_noAdj (f : Nat → Nat) :
    ∀ s : CS, (∀ c ∈ s, IsWs (f c) ↔ IsWs c) → noAdjWs s → noAdjWs (s.map f) := by
  intro s
  induction s with
  | nil => intro _ _; trivial
  | cons a rest ih =>
    intro hf hn
    cases rest with
    | nil => trivial
    | cons b r2 =>
      refine ⟨fun hp => hn.1 ⟨?_, ?_⟩, ?_⟩
      · exact (hf a (List.mem_cons_self _ _)).mp hp.1
      · exact (hf b (List.mem_cons_of_mem _ (List.mem_cons_self _ _))).mp hp.2
      · exact ih (fun c hc => hf c (List.mem_cons_of_mem _ hc)) hn.2

/-- Helper: a whitespace-preserving character map preserves a non-whitespace
head. -/
theorem map_pres_headNotWs (f : Nat → Nat) (s : CS)
    (hf : ∀ c ∈ s, IsWs (f c) ↔ IsWs c) (h : headNotWs s) : headNotWs (s.map f) := by
  cases s with
  | nil => trivial
  | cons a rest =>
    exact fun hw => h ((hf a (List.mem_cons_self _ _)).mp hw)

/-- Helper: a whitespace-preserving character map preserves a non-whitespace
last character. -/
theorem map_pres_lastNotWs (f : Nat → Nat) :
    ∀ s : CS, (∀ c ∈ s, IsWs (f c) ↔ IsWs c) → lastNotWs s → lastNotWs (s.map f) := by
  intro s
  induction s with
  | nil => intro _ _; trivial
  | cons a rest ih =>
    intro hf h
    cases rest with
    | nil => exact fun hw => h ((hf a (List.mem_cons_self _ _)).mp hw)
    | cons b r2 =>
      show lastNotWs (f b :: r2.map f)
      exact ih (fun c hc => hf c (List.mem_cons_of_mem _ hc)) h

/-- C9: header normalisation (NFD decomposition, diacritic stripping,
whitespace collapsing, trimming, lower-casing) is a total function on the
modelled strings and is idempotent: normalising an already-normalised header
returns it unchanged. -/
theorem normalizeHeader_idem (s : CS) :
    normalizeHeader (normalizeHeader s) = normalizeHeader s := by
  have hw : ∀ c ∈ stripMarks (nfd s), tlookup nfdTable c = none ∧ ¬ Combining c :=
    strip_nfd_elem s
  have htsub : ∀ c ∈ trimWs (collapseWs (stripMarks (nfd s))),
      c = 32 ∨ c ∈ stripMarks (nfd s) := by
    intro c hc
    have h1 := trimRight_elem _ c hc
    have h2 := (List.dropWhile_sublist _).subset h1
    exact collapseGo_elem _ false c h2
  have htkey : ∀ c ∈ trimWs (collapseWs (stripMarks (nfd s))),
      tlookup nfdTable c = none := by
    intro c hc
    rcases htsub c hc with rfl | hcw
    · decide
    · exact (hw c hcw).1
  have htcomb : ∀ c ∈ trimWs (collapseWs (stripMarks (nfd s))), ¬ Combining c := by
    intro c hc
    rcases htsub c hc with rfl | hcw
    · decide
    · exact (hw c hcw).2
  have htall : allWsSpace (trimWs (collapseWs (stripMarks (nfd s)))) := by
    intro c hc hcw
    have h1 := trimRight_elem _ c hc
    have h2 := (List.dropWhile_sublist _).subset h1
    exact collapseGo_allWs _ false c h2 hcw
  have htnoadj : noAdjWs (trimWs (collapseWs (stripMarks (nfd s)))) :=
    trimRight_noAdj _ (dropWhileWs_noAdj _ (collapseGo_noAdj _ false))
  have hthead : headNotWs (trimWs (collapseWs (stripMarks (nfd s)))) :=
    trimRight_headNotWs _ (dropWhileWs_headNotWs _)
  have htlast : lastNotWs (trimWs (collapseWs (stripMarks (nfd s)))) :=
    trimRight_lastNotWs _
  have hiff : ∀ c ∈ trimWs (collapseWs (stripMarks (nfd s))),
      IsWs (toLowerChar c) ↔ IsWs c :=
    fun c hc => (toLowerChar_good c (htkey c hc)).2.2.1
  have hukey : ∀ c ∈ normalizeHeader s, tlookup nfdTable c = none := by
    intro c hc
    obtain ⟨c', hc', rfl⟩ := List.mem_map.mp hc
    exact (toLowerChar_good c' (htkey c' hc')).1
  have hufix : ∀ c ∈ normalizeHeader s, toLowerChar c = c := by
    intro c hc
    obtain ⟨c', hc', rfl⟩ := List.mem_map.mp hc
    exact (toLowerChar_good c' (htkey c' hc')).2.1
  have hucomb : ∀ c ∈ normalizeHeader s, ¬ Combining c := by
    intro c hc
    obtain ⟨c', hc', rfl⟩ := List.mem_map.mp hc
    exact fun h =>
      (htcomb c' hc') ((toLowerChar_good c' (htkey c' hc')).2.2.2.mp h)
  have huall : allWsSpace (normalizeHeader s) :=
    map_pres_allWs _ _ hiff (by decide) htall
  have hunoadj : noAdjWs (normalizeHeader s) :=
    map_pres_noAdj _ _ hiff htnoadj
  have huhead : headNotWs (normalizeHeader s) :=
    map_pres_headNotWs _ _ hiff hthead
  have hulast : lastNotWs (normalizeHeader s) :=
    map_pres_lastNotWs _ _ hiff htlast
  generalize hgen : normalizeHeader s = u at hukey hufix hucomb huall hunoadj huhead hulast ⊢
  rw [normalizeHeader]
  rw [nfd_eq_self _ hukey, stripMarks_eq_self _ hucomb]
  rw [show collapseWs u = u from (collapseGo_eq_self _ huall hunoadj).1]
  rw [trimWs, dropWhileWs_eq_self _ huhead, trimRight_eq_self _ hulast]
  exact map_id_of _ _ hufix
